import Mathlib

/-!
Verification development for the VBA flow-JSON analyzer
(`scripts/VBA-FlowJson.ps1`).  The PowerShell source is shallowly
embedded: each PowerShell function becomes a pure Lean function over
explicit state, and the regular expressions used for statement
classification are implemented as character-list matchers that follow
the regexes of the source.  All definitions are executable so that the
theorems below can be checked on concrete procedure bodies.
-/

namespace VBAFlow

/-! ## Character and string utilities

PowerShell `-match`/`-replace` operate on .NET strings; we model lines
as `String` (lists of characters).  `\s` is modelled by the common
whitespace characters, and case-insensitive matching (the default for
PowerShell `-match`) lowercases ASCII letters. -/

def apos : Char := Char.ofNat 39

def isWsChar (c : Char) : Bool :=
  c = ' ' || c = '\t' || c = '\r' || c = '\n' || c = '\x0b' || c = '\x0c'

def lowerChar (c : Char) : Char :=
  if 'A' ≤ c && c ≤ 'Z' then Char.ofNat (c.toNat + 32) else c

/-- `\w` of the classification regexes: `[A-Za-z0-9_]`. -/
def isWordChar (c : Char) : Bool :=
  ('A' ≤ c && c ≤ 'Z') || ('a' ≤ c && c ≤ 'z') || ('0' ≤ c && c ≤ '9') || c = '_'

/-- `[A-Za-z_]`, the first character of an identifier. -/
def isIdentStart (c : Char) : Bool :=
  ('A' ≤ c && c ≤ 'Z') || ('a' ≤ c && c ≤ 'z') || c = '_'

def dropWs (cs : List Char) : List Char := cs.dropWhile isWsChar

/-- `.NET String.Trim()`: strip leading and trailing whitespace. -/
def trimChars (cs : List Char) : List Char :=
  ((cs.dropWhile isWsChar).reverse.dropWhile isWsChar).reverse

def trimStr (s : String) : String := ⟨trimChars s.data⟩

/-- `[string]::IsNullOrWhiteSpace`. -/
def isNullOrWhiteSpace (s : String) : Bool := s.data.all isWsChar

/-- Case-insensitive prefix match of a (lowercase) keyword; returns the
remainder on success. -/
def matchKwCI : List Char → List Char → Option (List Char)
  | [], cs => some cs
  | _ :: _, [] => none
  | k :: ks, c :: cs => if lowerChar c = k then matchKwCI ks cs else none

/-- Case-insensitive string equality (PowerShell `-eq` on strings). -/
def ciEq (a b : String) : Bool := a.data.map lowerChar = b.data.map lowerChar

/-- Lowercase a string (`.ToLower()` on the ASCII identifiers involved). -/
def toLowerStr (s : String) : String := ⟨s.data.map lowerChar⟩

/-- Take a maximal identifier `[A-Za-z_][A-Za-z0-9_]*`; `none` if the
first character is not an identifier start. -/
def takeIdent : List Char → Option (List Char × List Char)
  | [] => none
  | c :: cs =>
    if isIdentStart c then
      some (c :: cs.takeWhile isWordChar, cs.dropWhile isWordChar)
    else none

/-- `\b` at the boundary after a keyword: end of input or a non-word
character. -/
def wordBoundary : List Char → Bool
  | [] => true
  | c :: _ => !isWordChar c

/-! ## Decimal rendering of naturals

The source formats node ids with `"n{0}" -f $line` and suffixes
`"{0}_{1}" -f $baseId, $idx`; we render naturals in decimal. -/

def digitChar : Nat → Char
  | 0 => '0' | 1 => '1' | 2 => '2' | 3 => '3' | 4 => '4'
  | 5 => '5' | 6 => '6' | 7 => '7' | 8 => '8' | 9 => '9'
  | _ => '*'

/-- Decimal digits, least significant first, with explicit fuel. -/
def natDigitsRev (fuel : Nat) (n : Nat) : List Nat :=
  match fuel with
  | 0 => []
  | fuel + 1 => if n = 0 then [] else (n % 10) :: natDigitsRev fuel (n / 10)

def natRepr (n : Nat) : String :=
  if n = 0 then "0" else ⟨((natDigitsRev n n).map digitChar).reverse⟩

/-! ## StripComments (source lines 106–122)

```
if([string]::IsNullOrEmpty($Line)){ return "" }
if($Line -match '^\s*(?:''|Rem\s)'){ return "" }
$line = [regex]::Replace($line, "(?<![""'])(?:'|Rem\s).*", "")
$parts = $Line -split '(")'
for($i=0; $i -lt $parts.Length; $i+=2){ cut even part at first ' }
return ($parts -join "")
```
PowerShell variables are case-insensitive, so the `[regex]::Replace`
assignment to `$line` updates `$Line` and the split runs on the
replaced string.  `-match` is case-insensitive; `[regex]::Replace`
is case-sensitive. -/

/-- `^\s*(?:'|Rem\s)` (case-insensitive). -/
def leadingComment (cs : List Char) : Bool :=
  match dropWs cs with
  | [] => false
  | c :: rest =>
    c = apos ||
      (match matchKwCI ['r', 'e', 'm'] (c :: rest) with
       | some (w :: _) => isWsChar w
       | _ => false)

/-- One replacement pass of `(?<!["'])(?:'|Rem\s).*` with `""`:
truncate at the first apostrophe or `Rem␣` whose preceding character is
not a quote or apostrophe (case-sensitive `Rem`). -/
def stripTailComment : Option Char → List Char → List Char
  | _, [] => []
  | prev, c :: cs =>
    let prevOk : Bool := match prev with
      | none => true
      | some p => !(p = '"' || p = apos)
    if prevOk && c = apos then []
    else if prevOk && c = 'R' &&
        (match cs with
         | 'e' :: 'm' :: w :: _ => isWsChar w
         | _ => false) then []
    else c :: stripTailComment (some c) cs

/-- `-split '(")'`: split at double quotes, keeping each quote as its own
element (the capture group); text segments sit at even indices. -/
def splitQuote : List Char → List (List Char)
  | [] => [[]]
  | c :: rest =>
    if c = '"' then [] :: ['"'] :: splitQuote rest
    else
      match splitQuote rest with
      | [] => [[c]]
      | seg :: segs => (c :: seg) :: segs

/-- `$p.IndexOf("'")`-based cut of a segment at its first apostrophe. -/
def cutApos (p : List Char) : List Char := p.takeWhile (· ≠ apos)

/-- Apply `f` to the segments at even indices (the loop `for($i=0;...;$i+=2)`). -/
def mapEven (f : List Char → List Char) : List (List Char) → List (List Char)
  | [] => []
  | [x] => [f x]
  | x :: y :: rest => f x :: y :: mapEven f rest

def StripComments (Line : String) : String :=
  if Line.data.isEmpty then ""
  else if leadingComment Line.data then ""
  else
    let replaced := stripTailComment none Line.data
    ⟨(mapEven cutApos (splitQuote replaced)).flatten⟩

/-! ## JoinContinuations (source lines 125–142) -/

def trimEndChars (cs : List Char) : List Char :=
  (cs.reverse.dropWhile isWsChar).reverse

/-- Whole-suffix check for `\s+_\s*(?:'.*)?$` starting at the current
character (which the caller has verified to be whitespace). -/
def contTail (cs : List Char) : Bool :=
  match dropWs cs with
  | '_' :: b =>
    match dropWs b with
    | [] => true
    | d :: _ => d = apos
  | _ => false

/-- Find the leftmost match of `\s+_\s*(?:'.*)?$` and return the prefix
before it, or `none` when the line is not a continuation line. -/
def contSplit : Nat → List Char → Option (List Char)
  | 0, _ => none
  | _, [] => none
  | fuel + 1, c :: rest =>
    if isWsChar c && contTail (c :: rest) then some []
    else
      match contSplit fuel rest with
      | some pre => some (c :: pre)
      | none => none

def joinContGo : List String → String → List String
  | [], acc => if acc.data.isEmpty then [] else [acc]
  | ln :: rest, acc =>
    let t : String := ⟨trimEndChars ln.data⟩
    match contSplit t.data.length t.data with
    | some pre => joinContGo rest (acc ++ ⟨pre ++ [' ']⟩)
    | none =>
      if acc.data.isEmpty then ln :: joinContGo rest ""
      else (acc ++ t) :: joinContGo rest ""

def JoinContinuations (Lines : List String) : List String :=
  joinContGo Lines ""

/-! ## Statement classification matchers

One matcher per regex of `AnalyzeProcedure`'s line loop, in the order
the source tests them.  PowerShell `-match` is case-insensitive, hence
the `matchKwCI` keyword comparisons. -/

/-- `^\s*([A-Za-z_][A-Za-z0-9_]*)\s*:\s*$` — a label declaration line;
returns the identifier. -/
def matchLabelLine (cs : List Char) : Option String :=
  match takeIdent (dropWs cs) with
  | some (nm, rest) =>
    match dropWs rest with
    | ':' :: rest2 => if dropWs rest2 = [] then some ⟨nm⟩ else none
    | _ => none
  | none => none

/-- Lazy split for `^\s*If\s+(.+?)\s+Then\s+(.+?)\s*$`: the earliest
whitespace position followed by `Then`, more whitespace, and a
non-empty remainder.  `seen` carries the reversed first group. -/
def oneLineIfSplit : Nat → List Char → List Char → Option (List Char × List Char)
  | 0, _, _ => none
  | _, _, [] => none
  | fuel + 1, seen, c :: cs =>
    if isWsChar c && !seen.isEmpty then
      match matchKwCI ['t', 'h', 'e', 'n'] (dropWs (c :: cs)) with
      | some (w :: ws') =>
        if isWsChar w then
          let g2 := dropWs (w :: ws')
          if g2.isEmpty then oneLineIfSplit fuel (c :: seen) cs
          else some (seen.reverse, g2)
        else oneLineIfSplit fuel (c :: seen) cs
      | _ => oneLineIfSplit fuel (c :: seen) cs
    else oneLineIfSplit fuel (c :: seen) cs

/-- `^\s*If\s+(.+?)\s+Then\s+(.+?)\s*$` (one-line `If`); returns the
condition and the `Then` statement. -/
def matchOneLineIf (t : List Char) : Option (List Char × List Char) :=
  match matchKwCI ['i', 'f'] (dropWs t) with
  | some (w :: rest) =>
    if isWsChar w then
      let body := dropWs (w :: rest)
      oneLineIfSplit body.length [] body
    else none
  | _ => none

/-- Greedy split for `(.+)\s+Then` followed by `tail`: the rightmost
whitespace position followed by `Then` whose remainder satisfies
`tail`. -/
def blockIfSplit (tail : List Char → Bool) : Nat → List Char → List Char → Option (List Char)
  | 0, _, _ => none
  | _, _, [] => none
  | fuel + 1, seen, c :: cs =>
    let hereOk : Bool := isWsChar c && !seen.isEmpty &&
      (match matchKwCI ['t', 'h', 'e', 'n'] (dropWs (c :: cs)) with
       | some after => tail after
       | none => false)
    match blockIfSplit tail fuel (c :: seen) cs with
    | some g => some g
    | none => if hereOk then some seen.reverse else none

/-- `^\s*If\s+(.+)\s+Then\s*(?:$|:)` (block `If`); returns the raw
condition group. -/
def matchBlockIf (t : List Char) : Option String :=
  match matchKwCI ['i', 'f'] (dropWs t) with
  | some (w :: rest) =>
    if isWsChar w then
      let body := dropWs (w :: rest)
      (blockIfSplit
        (fun after =>
          match dropWs after with
          | [] => true
          | d :: _ => d = ':')
        body.length [] body).map (⟨·⟩)
    else none
  | _ => none

/-- `^\s*ElseIf\s+(.+)\s+Then\s*$`. -/
def matchElseIf (t : List Char) : Option String :=
  match matchKwCI ['e', 'l', 's', 'e', 'i', 'f'] (dropWs t) with
  | some (w :: rest) =>
    if isWsChar w then
      let body := dropWs (w :: rest)
      (blockIfSplit (fun after => dropWs after = []) body.length [] body).map (⟨·⟩)
    else none
  | _ => none

/-- `^\s*Else\s*$`. -/
def isElseLine (t : List Char) : Bool :=
  match matchKwCI ['e', 'l', 's', 'e'] (dropWs t) with
  | some rest => dropWs rest = []
  | none => false

/-- `^Else\s*$` — the `AddNode` text normalisation check (no leading
`\s*`). -/
def elseExactMatch (cs : List Char) : Bool :=
  match matchKwCI ['e', 'l', 's', 'e'] cs with
  | some rest => dropWs rest = []
  | none => false

/-- `^\s*End\s+If\s*$`. -/
def isEndIf (t : List Char) : Bool :=
  match matchKwCI ['e', 'n', 'd'] (dropWs t) with
  | some (w :: rest) =>
    if isWsChar w then
      match matchKwCI ['i', 'f'] (dropWs (w :: rest)) with
      | some rest2 => dropWs rest2 = []
      | none => false
    else false
  | _ => false

/-- `^\s*(Do\s+While|Do\s+Until|Do\b)` — the `While`/`Until`
alternatives start with whitespace after `Do` and are therefore
subsumed by the `Do\b` case. -/
def isDoLine (t : List Char) : Bool :=
  match matchKwCI ['d', 'o'] (dropWs t) with
  | some rest => wordBoundary rest
  | none => false

/-- `^\s*Loop\b`. -/
def isLoopLine (t : List Char) : Bool :=
  match matchKwCI ['l', 'o', 'o', 'p'] (dropWs t) with
  | some rest => wordBoundary rest
  | none => false

/-- `^\s*For\s+(.+)`. -/
def matchForLine (t : List Char) : Option String :=
  match matchKwCI ['f', 'o', 'r'] (dropWs t) with
  | some (w :: rest) =>
    if isWsChar w then
      match dropWs (w :: rest) with
      | [] => none
      | body => some ⟨body⟩
    else none
  | _ => none

/-- `^\s*Next(?:\s+(.+))?\s*$` (the group is unused by the source). -/
def isNextLine (t : List Char) : Bool :=
  match matchKwCI ['n', 'e', 'x', 't'] (dropWs t) with
  | some [] => true
  | some (c :: _) => isWsChar c
  | none => false

/-- `^\s*Select\s+Case\s+(.+)`. -/
def matchSelectLine (t : List Char) : Option String :=
  match matchKwCI ['s', 'e', 'l', 'e', 'c', 't'] (dropWs t) with
  | some (w :: rest) =>
    if isWsChar w then
      match matchKwCI ['c', 'a', 's', 'e'] (dropWs (w :: rest)) with
      | some (w2 :: rest2) =>
        if isWsChar w2 then
          match dropWs (w2 :: rest2) with
          | [] => none
          | body => some ⟨body⟩
        else none
      | _ => none
    else none
  | _ => none

/-- `^\s*Case\s+(.+)` (also matches `Case Else`, so the dedicated
`Case Else` branch of the source is nearly unreachable). -/
def matchCaseLine (t : List Char) : Option String :=
  match matchKwCI ['c', 'a', 's', 'e'] (dropWs t) with
  | some (w :: rest) =>
    if isWsChar w then
      match dropWs (w :: rest) with
      | [] => none
      | body => some ⟨body⟩
    else none
  | _ => none

/-- `^\s*Case\s*Else\b`. -/
def isCaseElseLine (t : List Char) : Bool :=
  match matchKwCI ['c', 'a', 's', 'e'] (dropWs t) with
  | some rest =>
    match matchKwCI ['e', 'l', 's', 'e'] (dropWs rest) with
    | some rest2 => wordBoundary rest2
    | none => false
  | none => false

/-- `^\s*End\s*Select\b`. -/
def isEndSelect (t : List Char) : Bool :=
  match matchKwCI ['e', 'n', 'd'] (dropWs t) with
  | some rest =>
    match matchKwCI ['s', 'e', 'l', 'e', 'c', 't'] (dropWs rest) with
    | some rest2 => wordBoundary rest2
    | none => false
  | none => false

/-- `^\s*With\s+(.+)$`. -/
def matchWithLine (t : List Char) : Option String :=
  match matchKwCI ['w', 'i', 't', 'h'] (dropWs t) with
  | some (w :: rest) =>
    if isWsChar w then
      match dropWs (w :: rest) with
      | [] => none
      | body => some ⟨body⟩
    else none
  | _ => none

/-- `^\s*End\s*With\b`. -/
def isEndWith (t : List Char) : Bool :=
  match matchKwCI ['e', 'n', 'd'] (dropWs t) with
  | some rest =>
    match matchKwCI ['w', 'i', 't', 'h'] (dropWs rest) with
    | some rest2 => wordBoundary rest2
    | none => false
  | none => false

/-- `^\s*Goto\s+([A-Za-z_][A-Za-z0-9_]*)`; returns the label. -/
def matchGotoLine (t : List Char) : Option String :=
  match matchKwCI ['g', 'o', 't', 'o'] (dropWs t) with
  | some (w :: rest) =>
    if isWsChar w then
      match takeIdent (dropWs (w :: rest)) with
      | some (nm, _) => some ⟨nm⟩
      | none => none
    else none
  | _ => none

/-- `^\s*(Exit\s+(Sub|Function|Property)|Return)\b`. -/
def isExitLine (t : List Char) : Bool :=
  let d := dropWs t
  (match matchKwCI ['e', 'x', 'i', 't'] d with
   | some (w :: rest) =>
     isWsChar w &&
       (let b := dropWs (w :: rest)
        (match matchKwCI ['s', 'u', 'b'] b with
         | some r => wordBoundary r
         | none => false) ||
        (match matchKwCI ['f', 'u', 'n', 'c', 't', 'i', 'o', 'n'] b with
         | some r => wordBoundary r
         | none => false) ||
        (match matchKwCI ['p', 'r', 'o', 'p', 'e', 'r', 't', 'y'] b with
         | some r => wordBoundary r
         | none => false))
   | _ => false) ||
  (match matchKwCI ['r', 'e', 't', 'u', 'r', 'n'] d with
   | some r => wordBoundary r
   | none => false)

/-- `^\s*Err\.Raise\b`. -/
def isErrRaiseLine (t : List Char) : Bool :=
  match matchKwCI ['e', 'r', 'r'] (dropWs t) with
  | some ('.' :: rest) =>
    match matchKwCI ['r', 'a', 'i', 's', 'e'] rest with
    | some rest2 => wordBoundary rest2
    | none => false
  | _ => false

/-! ## Call detection (source lines 443–446, 861–915)

```
$rxCall1 = '(?i)\bCall\s+([A-Za-z_][A-Za-z0-9_]*)(?:\s*\()'
$rxCall2 = '(?i)\b([A-Za-z_][A-Za-z0-9_]*)\.([A-Za-z_][A-Za-z0-9_]*)\s*\('
$rxCall3 = '(?i)\b([A-Za-z_][A-Za-z0-9_]*)\s*\('
```
`\b` before an identifier start means the previous character is not a
word character.  `[regex]::Matches` finds non-overlapping matches left
to right; the scanners below resume after each match. -/

def prevOkWord : Option Char → Bool
  | none => true
  | some p => !isWordChar p

/-- First match of `rxCall1`, returning the called name. -/
def rxCall1Find : Nat → Option Char → List Char → Option String
  | 0, _, _ => none
  | _, _, [] => none
  | fuel + 1, prev, c :: cs =>
    (if prevOkWord prev then
      match matchKwCI ['c', 'a', 'l', 'l'] (c :: cs) with
      | some (w :: rest) =>
        if isWsChar w then
          match takeIdent (dropWs (w :: rest)) with
          | some (nm, r1) =>
            match dropWs r1 with
            | '(' :: _ => some (⟨nm⟩ : String)
            | _ => none
          | none => none
        else none
      | _ => none
    else none).orElse (fun _ => rxCall1Find fuel (some c) cs)

/-- All matches of `rxCall2`, as `(module, name)` pairs. -/
def rxCall2All : Nat → Option Char → List Char → List (String × String)
  | 0, _, _ => []
  | _, _, [] => []
  | fuel + 1, prev, c :: cs =>
    match
      (if prevOkWord prev then
        match takeIdent (c :: cs) with
        | some (m, '.' :: r1) =>
          match takeIdent r1 with
          | some (nm, r2) =>
            match dropWs r2 with
            | '(' :: r3 => some ((⟨m⟩ : String), (⟨nm⟩ : String), r3)
            | _ => none
          | none => none
        | _ => none
      else none) with
    | some (m, nm, r3) => (m, nm) :: rxCall2All fuel (some '(') r3
    | none => rxCall2All fuel (some c) cs

/-- All matches of `rxCall3`, as names. -/
def rxCall3All : Nat → Option Char → List Char → List String
  | 0, _, _ => []
  | _, _, [] => []
  | fuel + 1, prev, c :: cs =>
    match
      (if prevOkWord prev then
        match takeIdent (c :: cs) with
        | some (nm, r1) =>
          match dropWs r1 with
          | '(' :: r2 => some ((⟨nm⟩ : String), r2)
          | _ => none
        | none => none
      else none) with
    | some (nm, r2) => nm :: rxCall3All fuel (some '(') r2
    | none => rxCall3All fuel (some c) cs

/-- `^\s*(Dim|Set|Let|If|ElseIf|While|Do|For|Select|Case|With|Else|End|Public|Private|Friend|Const|Option)\b`. -/
def startsWithStmtKeyword (t : List Char) : Bool :=
  let d := dropWs t
  [['d', 'i', 'm'], ['s', 'e', 't'], ['l', 'e', 't'], ['i', 'f'],
   ['e', 'l', 's', 'e', 'i', 'f'], ['w', 'h', 'i', 'l', 'e'], ['d', 'o'],
   ['f', 'o', 'r'], ['s', 'e', 'l', 'e', 'c', 't'], ['c', 'a', 's', 'e'],
   ['w', 'i', 't', 'h'], ['e', 'l', 's', 'e'], ['e', 'n', 'd'],
   ['p', 'u', 'b', 'l', 'i', 'c'], ['p', 'r', 'i', 'v', 'a', 't', 'e'],
   ['f', 'r', 'i', 'e', 'n', 'd'], ['c', 'o', 'n', 's', 't'],
   ['o', 'p', 't', 'i', 'o', 'n']].any fun kw =>
    match matchKwCI kw d with
    | some rest => wordBoundary rest
    | none => false

/-- `^\s*[A-Za-z_][A-Za-z0-9_]*\s*=\s*NAME\s*\(` for a given name
(case-insensitive, name matched literally). -/
def isAssignmentOf (nm : String) (t : List Char) : Bool :=
  match takeIdent (dropWs t) with
  | some (_, r1) =>
    match dropWs r1 with
    | '=' :: r2 =>
      match matchKwCI (nm.data.map lowerChar) (dropWs r2) with
      | some r3 =>
        match dropWs r3 with
        | '(' :: _ => true
        | _ => false
      | none => false
    | _ => false
  | none => false

/-- `\.\s*NAME\s*\(` anywhere in the line. -/
def hasDotPrefixed (nm : String) : Nat → List Char → Bool
  | 0, _ => false
  | _, [] => false
  | fuel + 1, c :: cs =>
    (c = '.' &&
      (match matchKwCI (nm.data.map lowerChar) (dropWs cs) with
       | some r1 =>
         match dropWs r1 with
         | '(' :: _ => true
         | _ => false
       | none => false)) ||
    hasDotPrefixed nm fuel cs

structure Hit where
  module : Option String
  name : String
deriving Repr, DecidableEq

/-- The three detection passes of source lines 862–873, in order. -/
def detectCalls (t : List Char) : List Hit :=
  let h1 : List Hit :=
    match rxCall1Find (t.length + 1) none t with
    | some nm => [⟨none, nm⟩]
    | none => []
  let h2 : List Hit :=
    (rxCall2All (t.length + 1) none t).map fun p => ⟨some p.1, p.2⟩
  let h3 : List Hit :=
    ((rxCall3All (t.length + 1) none t).filter fun nm =>
      !startsWithStmtKeyword t && !isAssignmentOf nm t &&
        !hasDotPrefixed nm (t.length + 1) t).map fun nm => ⟨none, nm⟩
  h1 ++ h2 ++ h3

/-! ## Symbol-table lookups and call resolution (source lines 874–890)

PowerShell hashtable keys and the `-contains` operator compare
case-insensitively. -/

def tableHasKey (tbl : List (String × List String)) (k : String) : Bool :=
  tbl.any fun p => ciEq p.1 k

def tableGet (tbl : List (String × List String)) (k : String) : List String :=
  ((tbl.find? fun p => ciEq p.1 k).map (·.2)).getD []

def listContainsCI (l : List String) (x : String) : Bool :=
  l.any fun y => ciEq y x

/-- Resolution of one detected call (source lines 876–889): qualified
targets check the named module; unqualified targets prefer the current
module, then the first declaring module in table order, then fall back
to the bare name, unresolved. -/
def resolveCall (SymbolTable : List (String × List String)) (ThisModule : String)
    (h : Hit) : String × Bool :=
  match h.module with
  | some m =>
    (m ++ "." ++ h.name,
      tableHasKey SymbolTable m && listContainsCI (tableGet SymbolTable m) h.name)
  | none =>
    if tableHasKey SymbolTable ThisModule &&
        listContainsCI (tableGet SymbolTable ThisModule) h.name then
      (ThisModule ++ "." ++ h.name, true)
    else
      match SymbolTable.find? (fun p => listContainsCI p.2 h.name) with
      | some p => (p.1 ++ "." ++ h.name, true)
      | none => (h.name, false)

/-! ## Data model of the builder -/

structure Node where
  id : String
  type : String
  text : String
  line : Nat
  comment : Option String
deriving Repr, DecidableEq

structure Edge where
  from_ : String
  to_ : String
  label : String
deriving Repr, DecidableEq

structure CallRec where
  target : String
  resolved : Bool
  line : Nat
deriving Repr, DecidableEq

/-- Loop-span record (source lines 616–623 / 679–686); `headId`/`endId`
have the leading `n` of the node id stripped (`-replace '^n',''`). -/
structure LoopSpan where
  headId : String
  endId : String
  start : Nat
  end_ : Nat
  hierarchyId : Nat
  level : Nat
deriving Repr, DecidableEq

/-- The construct stack frames pushed by `AnalyzeProcedure`. -/
inductive Frame where
  | ifF (cond : String) (hasElse : Bool) (line : Nat) (ends : List String)
      (needsYes needsNo needsElse : Bool) (hierarchyId : Nat)
  | doF (head : String) (line : Nat) (hierarchyId : Nat)
  | forF (loopId : String) (line : Nat) (condition : String) (hierarchyId : Nat)
  | selF (head : String) (line : Nat) (ends : List String) (inCase : Bool)
  | withF (head : String) (line : Nat)
deriving Repr, DecidableEq

def Frame.kind : Frame → String
  | .ifF .. => "If"
  | .doF .. => "Do"
  | .forF .. => "For"
  | .selF .. => "Select"
  | .withF .. => "With"

/-- `Pop-UntilKind` (source lines 249–258): pop until a frame of the
requested kind appears, discarding intervening frames; `none` and an
empty stack when no frame matches. -/
def popUntilKind : List Frame → String → Option Frame × List Frame
  | [], _ => (none, [])
  | f :: rest, k => if f.kind = k then (some f, rest) else popUntilKind rest k

/-- `Peek-NearestKind` for `Select` (source lines 261–269), returning
the index of the nearest `Select` frame from the top. -/
def peekNearestSelectIdx : List Frame → Option Nat
  | [] => none
  | f :: rest =>
    match f with
    | .selF .. => some 0
    | _ => (peekNearestSelectIdx rest).map (· + 1)

/-- Loop-hierarchy bookkeeping (class `LoopHierarchy`, source lines
278–331); only `id` and `level` of the popped record reach the output
(inside loop spans). -/
structure LoopInfo where
  id : Nat
  type : String
  headNodeId : String
  line : Nat
  level : Nat
deriving Repr, DecidableEq

structure LoopHierarchy where
  loopStack : List LoopInfo
  nextLoopId : Nat
deriving Repr, DecidableEq

def LoopHierarchy.startLoop (h : LoopHierarchy) (type headNodeId : String)
    (line : Nat) : LoopInfo × LoopHierarchy :=
  let info : LoopInfo := ⟨h.nextLoopId, type, headNodeId, line, h.loopStack.length⟩
  (info, ⟨info :: h.loopStack, h.nextLoopId + 1⟩)

def LoopHierarchy.endLoop (h : LoopHierarchy) : Option LoopInfo × LoopHierarchy :=
  match h.loopStack with
  | [] => (none, h)
  | i :: rest => (some i, ⟨rest, h.nextLoopId⟩)

/-- If-hierarchy bookkeeping (class `IfHierarchy`, source lines
334–390); none of its fields reach the output. -/
structure IfInfo where
  id : Nat
  condNodeId : String
  line : Nat
  level : Nat
  hasElse : Bool
  elseIfCount : Nat
deriving Repr, DecidableEq

structure IfHierarchy where
  ifStack : List IfInfo
  nextIfId : Nat
deriving Repr, DecidableEq

def IfHierarchy.startIf (h : IfHierarchy) (condNodeId : String) (line : Nat) :
    IfInfo × IfHierarchy :=
  let info : IfInfo := ⟨h.nextIfId, condNodeId, line, h.ifStack.length, false, 0⟩
  (info, ⟨info :: h.ifStack, h.nextIfId + 1⟩)

def IfHierarchy.addElseIf (h : IfHierarchy) : IfHierarchy :=
  match h.ifStack with
  | [] => h
  | i :: rest => ⟨{ i with elseIfCount := i.elseIfCount + 1 } :: rest, h.nextIfId⟩

def IfHierarchy.addElse (h : IfHierarchy) : IfHierarchy :=
  match h.ifStack with
  | [] => h
  | i :: rest => ⟨{ i with hasElse := true } :: rest, h.nextIfId⟩

def IfHierarchy.endIf (h : IfHierarchy) : IfHierarchy :=
  match h.ifStack with
  | [] => h
  | _ :: rest => ⟨rest, h.nextIfId⟩

/-- Case-insensitive association update (PowerShell hashtable
assignment). -/
def setKey {α : Type} : List (String × α) → String → α → List (String × α)
  | [], k, v => [(k, v)]
  | (k', v') :: rest, k, v =>
    if ciEq k' k then (k, v) :: rest else (k', v') :: setKey rest k v

def getKey {α : Type} (m : List (String × α)) (k : String) : Option α :=
  (m.find? fun p => ciEq p.1 k).map (·.2)

/-- `-replace '^n', ''` on a node id (case-insensitive). -/
def stripLeadN (s : String) : String :=
  match s.data with
  | c :: rest => if lowerChar c = 'n' then ⟨rest⟩ else s
  | [] => s

/-- `$trim.Split(':')[0]`. -/
def splitColonFirst (s : String) : String := ⟨s.data.takeWhile (· ≠ ':')⟩

/-- The mutable state of one `AnalyzeProcedure` invocation. -/
structure BState where
  usedIds : List String
  nodes : List Node
  edges : List Edge
  calls : List CallRec
  loopSpans : List LoopSpan
  labels : List (String × Nat)
  labelNodeMap : List (String × String)
  prevId : Option String
  stack : List Frame
  loopH : LoopHierarchy
  ifH : IfHierarchy
deriving Repr, DecidableEq

/-- Candidate suffix search of `AddNode`: try `base_idx`, `base_(idx+1)`,
… until a free id is found (the `while ($usedIds.Contains($id))` loop). -/
def nextFreeAux (used : List String) (base : String) : Nat → Nat → String
  | idx, 0 => base ++ "_" ++ natRepr idx
  | idx, fuel + 1 =>
    let cand := base ++ "_" ++ natRepr idx
    if cand ∈ used then nextFreeAux used base (idx + 1) fuel else cand

/-- `$AddNode` (source lines 397–422): normalise the text, generate a
line-based id with a disambiguating suffix, append the node. -/
def AddNode (st : BState) (type text : String) (line : Nat) : String × BState :=
  let cleanText := if ciEq text "Else?.*" || elseExactMatch text.data then "Else" else text
  let baseId := "n" ++ natRepr line
  let id :=
    if baseId ∈ st.usedIds then nextFreeAux st.usedIds baseId 2 (st.usedIds.length + 1)
    else baseId
  (id, { st with
      usedIds := st.usedIds ++ [id]
      nodes := st.nodes ++ [⟨id, type, trimStr cleanText, line, none⟩] })

/-- `$AddEdge` (source lines 424–429): append an edge unless either
endpoint is null, empty or whitespace. -/
def AddEdge (st : BState) (from_ to_ : Option String) (label : String) : BState :=
  match from_, to_ with
  | some f, some t =>
    if isNullOrWhiteSpace f || isNullOrWhiteSpace t then st
    else { st with edges := st.edges ++ [⟨f, t, label⟩] }
  | _, _ => st

/-! ## The line-walk of `AnalyzeProcedure` (source lines 448–948)

Each branch of the classification chain becomes one step function;
`processLine` strings them together in the source's priority order. -/

structure Config where
  StartLineOffset : Nat
  ThisModule : String
  SymbolTable : List (String × List String)

/-- Connection rule shared by the call branch (894–911) and the op
branch (917–947): when the top frame is an open `If` whose `Yes` edge
is unused (and no `Else` seen), connect from the condition with label
`Yes`; otherwise chain from `prevId` unless it still points at the
condition. -/
def connectFromContext (st : BState) (newId : String) : BState :=
  match st.stack with
  | Frame.ifF cond hasElse line ends needsYes needsNo needsElse hid :: rest =>
    if needsYes && !hasElse then
      let st := AddEdge st (some cond) (some newId) "Yes"
      { st with stack := Frame.ifF cond hasElse line ends false needsNo needsElse hid :: rest }
    else
      match st.prevId with
      | some p => if p ≠ cond then AddEdge st (some p) (some newId) "" else st
      | none => st
  | _ => AddEdge st st.prevId (some newId) ""

/-- One-line `If cond Then stmt` (source lines 458–488). -/
def stepOneLineIf (st : BState) (lineNum : Nat) (condExpr thenStmt : String) : BState :=
  let q := AddNode st "cond" ("If " ++ condExpr ++ "?") lineNum
  let cid := q.1
  let st := q.2
  let st := AddEdge st st.prevId (some cid) ""
  let st :=
    if isExitLine thenStmt.data then
      let q := AddNode st "end" thenStmt lineNum
      let eid := q.1
      let st := q.2
      AddEdge st (some cid) (some eid) "Yes"
    else
      let q := AddNode st "op" thenStmt lineNum
      let tid := q.1
      let st := q.2
      AddEdge st (some cid) (some tid) "Yes"
  let q := AddNode st "join" "End If" lineNum
  let joinId := q.1
  let st := q.2
  let st := AddEdge st (some cid) (some joinId) "No"
  -- `if ($PSBoundParameters.ContainsKey('tid'))` (line 483) tests the
  -- bound parameters of AnalyzeProcedure, never 'tid', so the edge
  -- from the Then node to the join is never emitted.
  { st with prevId := some joinId }

/-- Block `If … Then` (source lines 491–508). -/
def stepBlockIf (st : BState) (lineNum : Nat) (g1 : String) : BState :=
  let q := AddNode st "cond" ("If " ++ trimStr g1 ++ "?") lineNum
  let cid := q.1
  let st := q.2
  let st := AddEdge st st.prevId (some cid) ""
  let q := st.ifH.startIf cid lineNum
  let ifInfo := q.1
  let ifH := q.2
  { st with
    ifH := ifH
    stack := Frame.ifF cid false lineNum [] true true false ifInfo.id :: st.stack
    prevId := some cid }

/-- `ElseIf … Then` (source lines 511–539). -/
def stepElseIf (st : BState) (lineNum : Nat) (g1 : String) : BState :=
  match st.stack with
  | Frame.ifF cond hasElse line ends _ _ _ hid :: rest =>
    let ends := match st.prevId with
      | some p => ends ++ [p]
      | none => ends
    let ifH := st.ifH.addElseIf
    let q := AddNode st "cond" ("ElseIf " ++ trimStr g1 ++ "?") lineNum
    let eid := q.1
    let st := q.2
    let st := AddEdge st (some cond) (some eid) "No"
    { st with
      ifH := ifH
      stack := Frame.ifF eid hasElse line ends true true false hid :: rest
      prevId := some eid }
  | _ => st

/-- `Else` (source lines 541–559). -/
def stepElse (st : BState) (lineNum : Nat) : BState :=
  match st.stack with
  | Frame.ifF cond hasElse line ends needsYes needsNo needsElse hid :: rest =>
    let ends := match st.prevId with
      | some p => ends ++ [p]
      | none => ends
    let ifH := st.ifH.addElse
    if needsNo then
      let q := AddNode st "op" "Else" lineNum
      let elseId := q.1
      let st := q.2
      let st := AddEdge st (some cond) (some elseId) "No"
      { st with
        ifH := ifH
        stack := Frame.ifF cond true line ends needsYes false needsElse hid :: rest
        prevId := some elseId }
    else
      { st with
        ifH := ifH
        stack := Frame.ifF cond hasElse line ends needsYes needsNo needsElse hid :: rest }
  | _ => st

/-- `End If` (source lines 562–586). -/
def stepEndIf (st : BState) (lineNum : Nat) : BState :=
  match st.stack with
  | Frame.ifF cond hasElse _ ends _ needsNo _ _ :: rest =>
    let st := { st with stack := rest }
    let q := AddNode st "join" "End If" lineNum
    let joinId := q.1
    let st := q.2
    let st := { st with ifH := st.ifH.endIf }
    let ends := match st.prevId with
      | some p => ends ++ [p]
      | none => ends
    let st := ends.foldl (fun s e => AddEdge s (some e) (some joinId) "") st
    let st := if !hasElse && needsNo then AddEdge st (some cond) (some joinId) "No" else st
    { st with prevId := some joinId }
  | _ => st

/-- `Do [While|Until]` (source lines 589–603). -/
def stepDo (st : BState) (lineNum : Nat) (trimS : String) : BState :=
  let q := AddNode st "loop" (splitColonFirst trimS) lineNum
  let did := q.1
  let st := q.2
  let st := AddEdge st st.prevId (some did) ""
  let q := st.loopH.startLoop "Do" did lineNum
  let info := q.1
  let loopH := q.2
  { st with
    loopH := loopH
    stack := Frame.doF did lineNum info.id :: st.stack
    prevId := some did }

/-- `Loop` (source lines 606–632): pop (and discard) frames until the
nearest `Do`. -/
def stepLoop (st : BState) (lineNum : Nat) : BState :=
  match popUntilKind st.stack "Do" with
  | (some (Frame.doF head hline _), rest) =>
    let st := { st with stack := rest }
    let q := AddNode st "loopEnd" "Loop End" lineNum
    let eid := q.1
    let st := q.2
    let st := AddEdge st st.prevId (some eid) ""
    let q := st.loopH.endLoop
    let info? := q.1
    let loopH := q.2
    let span : LoopSpan :=
      { headId := stripLeadN head, endId := stripLeadN eid,
        start := hline, end_ := lineNum,
        hierarchyId := ((info?.map (·.id)).getD 0),
        level := ((info?.map (·.level)).getD 0) }
    { st with loopH := loopH, loopSpans := st.loopSpans ++ [span], prevId := some eid }
  | (_, rest) => { st with stack := rest }

/-- `For …` (source lines 635–652). -/
def stepFor (st : BState) (lineNum : Nat) (g1 : String) : BState :=
  let forCond := trimStr g1
  let q := AddNode st "loop" ("For " ++ forCond) lineNum
  let fid := q.1
  let st := q.2
  let st := AddEdge st st.prevId (some fid) ""
  let q := st.loopH.startLoop "For" fid lineNum
  let info := q.1
  let loopH := q.2
  { st with
    loopH := loopH
    stack := Frame.forF fid lineNum forCond info.id :: st.stack
    prevId := some fid }

/-- `Next` (source lines 669–693): only acts when the top frame is a
`For` (no pop-until search). -/
def stepNext (st : BState) (lineNum : Nat) : BState :=
  match st.stack with
  | Frame.forF loopId fline _ _ :: rest =>
    let st := { st with stack := rest }
    let q := AddNode st "loopEnd" "For Next End" lineNum
    let eid := q.1
    let st := q.2
    let st := AddEdge st st.prevId (some eid) ""
    let q := st.loopH.endLoop
    let info? := q.1
    let loopH := q.2
    let span : LoopSpan :=
      { headId := stripLeadN loopId, endId := stripLeadN eid,
        start := fline, end_ := lineNum,
        hierarchyId := ((info?.map (·.id)).getD 0),
        level := ((info?.map (·.level)).getD 0) }
    { st with loopH := loopH, loopSpans := st.loopSpans ++ [span], prevId := some eid }
  | _ => st

/-- `Select Case …` (source lines 698–708). -/
def stepSelect (st : BState) (lineNum : Nat) (g1 : String) : BState :=
  let q := AddNode st "switch" ("Select Case " ++ trimStr g1) lineNum
  let sid := q.1
  let st := q.2
  let st := AddEdge st st.prevId (some sid) ""
  { st with stack := Frame.selF sid lineNum [] false :: st.stack, prevId := some sid }

/-- `Case …` / `Case Else` (source lines 711–747).  The source mutates
the nearest `Select` frame in place and then pops the top frame and
pushes a reference to the mutated frame; with immutable frames both
positions receive the updated value. -/
def stepCaseCommon (st : BState) (lineNum : Nat) (text : String) : BState :=
  match peekNearestSelectIdx st.stack with
  | some k =>
    match st.stack.get? k with
    | some (Frame.selF head sline ends inCase) =>
      let ends := match st.prevId with
        | some p => if inCase && p ≠ head then ends ++ [p] else ends
        | none => ends
      let q := AddNode st "case" text lineNum
      let cid := q.1
      let st := q.2
      let st := AddEdge st (some head) (some cid) ""
      let updSel := Frame.selF head sline ends true
      { st with
        stack := updSel :: (st.stack.set k updSel).tail
        prevId := some cid }
    | _ => st
  | none => st

/-- `End Select` (source lines 750–774). -/
def stepEndSelect (st : BState) (lineNum : Nat) : BState :=
  let q := popUntilKind st.stack "Select"
  let sel? := q.1
  let rest := q.2
  let st := { st with stack := rest }
  let q := AddNode st "join" "End Select" lineNum
  let joinId := q.1
  let st := q.2
  match sel? with
  | some (Frame.selF head _ ends inCase) =>
    let ends := match st.prevId with
      | some p => if inCase && p ≠ head then ends ++ [p] else ends
      | none => ends
    let st := ends.foldl (fun s e => AddEdge s (some e) (some joinId) "") st
    let st := if ends.isEmpty then AddEdge st (some head) (some joinId) "" else st
    { st with prevId := some joinId }
  | _ =>
    let st := AddEdge st st.prevId (some joinId) ""
    { st with prevId := some joinId }

/-- `With …` (source lines 777–783). -/
def stepWith (st : BState) (lineNum : Nat) (g1 : String) : BState :=
  let q := AddNode st "block" ("With " ++ trimStr g1) lineNum
  let wid := q.1
  let st := q.2
  let st := AddEdge st st.prevId (some wid) ""
  { st with stack := Frame.withF wid lineNum :: st.stack, prevId := some wid }

/-- `End With` (source lines 786–794). -/
def stepEndWith (st : BState) (lineNum : Nat) : BState :=
  let q := popUntilKind st.stack "With"
  let top? := q.1
  let rest := q.2
  let st := { st with stack := rest }
  match top? with
  | some _ =>
    let q := AddNode st "join" "End With" lineNum
    let joinId := q.1
    let st := q.2
    let st := AddEdge st st.prevId (some joinId) ""
    { st with prevId := some joinId }
  | none => st

/-- `Goto label` (source lines 797–811): jump to the label's node id if
already created, else to the line-number-predicted id `n<line>` from
the pre-pass label table. -/
def stepGoto (cfg : Config) (st : BState) (lineNum : Nat) (trimS lbl : String) : BState :=
  let q := AddNode st "goto" trimS lineNum
  let gid := q.1
  let st := q.2
  let st := AddEdge st st.prevId (some gid) ""
  let lblL := toLowerStr lbl
  let st :=
    match getKey st.labelNodeMap lblL with
    | some nid => AddEdge st (some gid) (some nid) "goto"
    | none =>
      match getKey st.labels lblL with
      | some li =>
        AddEdge st (some gid) (some ("n" ++ natRepr (cfg.StartLineOffset + li))) "goto"
      | none => st
  { st with prevId := some gid }

/-- Label anchor branch (source lines 814–827).  Unreachable: the early
skip at line 455 consumes every line this branch's regex matches; kept
for completeness.  The source's `$#prevId = $null` line is inert. -/
def stepLabel (st : BState) (lineNum : Nat) (i : Nat) (lbl : String) : BState :=
  let lblL := toLowerStr lbl
  let st := { st with labels := setKey st.labels lblL i }
  let q := AddNode st "label" ("Label: " ++ lbl) lineNum
  let lid := q.1
  let st := q.2
  { st with labelNodeMap := setKey st.labelNodeMap lblL lid, prevId := some lid }

/-- `Exit Sub|Function|Property` / `Return` (source lines 830–843) and
`Err.Raise` (lines 846–859), which share this body: terminal `end`
node, `Yes`-labelled edge when the predecessor is a condition, and the
cursor cleared. -/
def stepTerminal (st : BState) (lineNum : Nat) (trimS : String) : BState :=
  let q := AddNode st "end" trimS lineNum
  let eid := q.1
  let st := q.2
  let prevIsCond : Bool :=
    match st.prevId with
    | some p =>
      match st.nodes.find? fun n => ciEq n.id p with
      | some n => n.type = "cond"
      | none => false
    | none => false
  let st := AddEdge st st.prevId (some eid) (if prevIsCond then "Yes" else "")
  { st with prevId := none }

/-- Call-site branch (source lines 874–915). -/
def stepCalls (cfg : Config) (st : BState) (lineNum : Nat) (trimS : String)
    (hits : List Hit) : BState :=
  let st := hits.foldl
    (fun s h =>
      let tr := resolveCall cfg.SymbolTable cfg.ThisModule h
      { s with calls := s.calls ++ [⟨tr.1, tr.2, lineNum⟩] })
    st
  let q := AddNode st "call" trimS lineNum
  let cid := q.1
  let st := q.2
  let st := connectFromContext st cid
  { st with prevId := some cid }

/-- Plain operation statement (source lines 917–947). -/
def stepOp (st : BState) (lineNum : Nat) (trimS : String) : BState :=
  let q := AddNode st "op" trimS lineNum
  let oid := q.1
  let st := q.2
  let st := connectFromContext st oid
  { st with prevId := some oid }

/-! The classification chain of the line loop (source lines 453–948),
split into stages in the source's priority order; each stage falls
through to the next when its regexes do not match. -/

/-- Final stage: call detection, else a plain operation (lines 861–947). -/
def ptCalls (cfg : Config) (st : BState) (lineNum : Nat) (trimS : String) : BState :=
  match detectCalls trimS.data with
  | [] => stepOp st lineNum trimS
  | h :: hs => stepCalls cfg st lineNum trimS (h :: hs)

/-- `Exit`/`Return` and `Err.Raise` (lines 830–859). -/
def ptTerm (cfg : Config) (st : BState) (lineNum : Nat) (trimS : String) : BState :=
  if isExitLine trimS.data then stepTerminal st lineNum trimS
  else if isErrRaiseLine trimS.data then stepTerminal st lineNum trimS
  else ptCalls cfg st lineNum trimS

/-- `Goto` and the (unreachable) label branch (lines 797–827). -/
def ptGotoLabel (cfg : Config) (st : BState) (i lineNum : Nat) (trimS : String) : BState :=
  match matchGotoLine trimS.data with
  | some lbl => stepGoto cfg st lineNum trimS lbl
  | none =>
    match matchLabelLine trimS.data with
    | some lbl => stepLabel st lineNum i lbl
    | none => ptTerm cfg st lineNum trimS

/-- `With`/`End With` (lines 777–794). -/
def ptWith (cfg : Config) (st : BState) (i lineNum : Nat) (trimS : String) : BState :=
  match matchWithLine trimS.data with
  | some g1 => stepWith st lineNum g1
  | none =>
    if isEndWith trimS.data then stepEndWith st lineNum
    else ptGotoLabel cfg st i lineNum trimS

/-- `Select Case`/`Case`/`Case Else`/`End Select` (lines 698–774). -/
def ptSelect (cfg : Config) (st : BState) (i lineNum : Nat) (trimS : String) : BState :=
  match matchSelectLine trimS.data with
  | some g1 => stepSelect st lineNum g1
  | none =>
    match matchCaseLine trimS.data with
    | some g1 => stepCaseCommon st lineNum ("Case " ++ trimStr g1)
    | none =>
      if isCaseElseLine trimS.data then stepCaseCommon st lineNum "Case Else"
      else if isEndSelect trimS.data then stepEndSelect st lineNum
      else ptWith cfg st i lineNum trimS

/-- `Do`/`Loop`/`For`/`Next` (lines 589–693). -/
def ptLoops (cfg : Config) (st : BState) (i lineNum : Nat) (trimS : String) : BState :=
  if isDoLine trimS.data then stepDo st lineNum trimS
  else if isLoopLine trimS.data then stepLoop st lineNum
  else
    match matchForLine trimS.data with
    | some g1 => stepFor st lineNum g1
    | none =>
      if isNextLine trimS.data then stepNext st lineNum
      else ptSelect cfg st i lineNum trimS

/-- One-line `If`, `If`/`ElseIf`/`Else`/`End If` (lines 458–586). -/
def ptIf (cfg : Config) (st : BState) (i lineNum : Nat) (trimS : String) : BState :=
  match matchOneLineIf trimS.data with
  | some g => stepOneLineIf st lineNum (trimStr ⟨g.1⟩) (trimStr ⟨g.2⟩)
  | none =>
    match matchBlockIf trimS.data with
    | some g1 => stepBlockIf st lineNum g1
    | none =>
      match matchElseIf trimS.data with
      | some g1 => stepElseIf st lineNum g1
      | none =>
        if isElseLine trimS.data then stepElse st lineNum
        else if isEndIf trimS.data then stepEndIf st lineNum
        else ptLoops cfg st i lineNum trimS

/-- Blank and label lines are skipped up front (lines 454–455), then
the classification chain runs. -/
def processTrim (cfg : Config) (st : BState) (i lineNum : Nat) (trimS : String) : BState :=
  if isNullOrWhiteSpace trimS then st
  else if (matchLabelLine trimS.data).isSome then st
  else ptIf cfg st i lineNum trimS

/-- One iteration of the line loop (source lines 449–948). -/
def processLine (cfg : Config) (st : BState) (i : Nat) (rawLine : String) : BState :=
  processTrim cfg st i (cfg.StartLineOffset + i) (trimStr (StripComments rawLine))

/-- A raw body line none of whose classifications reach the
cursor-clearing `Exit`/`Return`/`Err.Raise` branches or the `ElseIf`
branch (the two ways the builder abandons the predecessor cursor). -/
def benign (l : String) : Prop :=
  isExitLine (trimStr (StripComments l)).data = false ∧
  isErrRaiseLine (trimStr (StripComments l)).data = false ∧
  matchElseIf (trimStr (StripComments l)).data = none

def processLines (cfg : Config) : BState → Nat → List String → BState
  | st, _, [] => st
  | st, i, l :: ls => processLines cfg (processLine cfg st i l) (i + 1) ls

/-- Pre-pass building the label table (source lines 432–437). -/
def prePassLabels : Nat → List String → List (String × Nat) → List (String × Nat)
  | _, [], m => m
  | i, l :: ls, m =>
    match matchLabelLine (StripComments l).data with
    | some nm => prePassLabels (i + 1) ls (setKey m (toLowerStr nm) i)
    | none => prePassLabels (i + 1) ls m

structure AnalysisResult where
  nodes : List Node
  edges : List Edge
  calls : List CallRec
  loopSpans : List LoopSpan
deriving Repr, DecidableEq

def initState (labels0 : List (String × Nat)) : BState :=
  ⟨[], [], [], [], [], labels0, [], none, [], ⟨[], 1⟩, ⟨[], 1⟩⟩

/-- The builder state at the end of `AnalyzeProcedure` (source lines
237–956): start node, line walk, final end node. -/
def finalState (BodyLines : List String) (StartLineOffset : Nat)
    (ThisModule : String) (SymbolTable : List (String × List String)) : BState :=
  let cfg : Config := ⟨StartLineOffset, ThisModule, SymbolTable⟩
  let labels0 := prePassLabels 0 BodyLines []
  let st := initState labels0
  let q := AddNode st "start" "Start" StartLineOffset
  let startId := q.1
  let st := q.2
  let st := { st with prevId := some startId }
  let st := processLines cfg st 0 BodyLines
  let endLine := StartLineOffset + BodyLines.length
  let q := AddNode st "end" "End" endLine
  let endId := q.1
  let st := q.2
  AddEdge st st.prevId (some endId) ""

/-- `AnalyzeProcedure` returns the node/edge/call/span lists of the
final builder state. -/
def AnalyzeProcedure (BodyLines : List String) (StartLineOffset : Nat)
    (ThisModule : String) (SymbolTable : List (String × List String)) : AnalysisResult :=
  let st := finalState BodyLines StartLineOffset ThisModule SymbolTable
  ⟨st.nodes, st.edges, st.calls, st.loopSpans⟩

/-! ## Symbol-table construction (source lines 94–100, 145–154, 183–201)

File I/O is modelled by a folder value: a directory-existence flag and
the list of files that `Get-ChildItem -Include *.bas,*.cls,*.frm`
enumerates, each with its content or `none` when reading fails.
`$ErrorActionPreference = 'Stop'` (line 74) makes a failed read throw,
and `BuildSymbolTable` has no try/catch, so the exception propagates. -/

inductive ScriptError where
  | folderNotFound
  | fileNotFound (name : String)
deriving Repr, DecidableEq

structure FileEntry where
  name : String
  content : Option (List String)
deriving Repr, DecidableEq

structure Folder where
  dirExists : Bool
  files : List FileEntry
deriving Repr, DecidableEq

/-- `ReadFileLines` (source lines 94–100): throws when the file cannot
be found or read. -/
def ReadFileLines (f : FileEntry) : Except ScriptError (List String) :=
  match f.content with
  | some ls => .ok ls
  | none => .error (.fileNotFound f.name)

/-- Case-insensitive extension filter for `*.bas`, `*.cls`, `*.frm`. -/
def hasModuleExt (n : String) : Bool :=
  let r := (n.data.map lowerChar).reverse
  r.take 4 = ['s', 'a', 'b', '.'] || r.take 4 = ['s', 'l', 'c', '.'] ||
    r.take 4 = ['m', 'r', 'f', '.']

/-- `^\s*Attribute\s+VB_Name\s*=\s*"(?<n>[^"]+)"`. -/
def matchVBNameAttr (cs : List Char) : Option String :=
  match matchKwCI ['a', 't', 't', 'r', 'i', 'b', 'u', 't', 'e'] (dropWs cs) with
  | some (w :: rest) =>
    if isWsChar w then
      match matchKwCI ['v', 'b', '_', 'n', 'a', 'm', 'e'] (dropWs (w :: rest)) with
      | some r1 =>
        match dropWs r1 with
        | '=' :: r2 =>
          match dropWs r2 with
          | '"' :: r3 =>
            let nm := r3.takeWhile (· ≠ '"')
            if nm.isEmpty then none
            else if (r3.dropWhile (· ≠ '"')).head? = some '"' then some ⟨nm⟩
            else none
          | _ => none
        | _ => none
      | none => none
    else none
  | _ => none

/-- `[IO.Path]::GetFileNameWithoutExtension`. -/
def baseNameNoExt (s : String) : String :=
  let af := (s.data.reverse.takeWhile fun c => c ≠ '/' && c ≠ '\\').reverse
  let revAf := af.reverse
  if revAf.any (· = '.') then ⟨((revAf.dropWhile (· ≠ '.')).drop 1).reverse⟩
  else ⟨af⟩

/-- `GetModuleName` (source lines 145–154): scan the first 201 lines
for the `VB_Name` attribute, falling back to the file base name. -/
def GetModuleName (Lines : List String) (Fallback : String) : String :=
  match (Lines.take 201).findSome? (fun l => matchVBNameAttr l.data) with
  | some n => n
  | none => baseNameNoExt Fallback

/-- Identifier of the procedure-header pattern,
`[\p{L}_][\p{L}\p{N}_]*` (letters modelled by `Char.isAlpha`; the
inputs of interest are ASCII). -/
def takeIdentU : List Char → Option (List Char × List Char)
  | [] => none
  | c :: cs =>
    if c.isAlpha || c = '_' then
      some (c :: cs.takeWhile (fun d => d.isAlpha || d.isDigit || d = '_'),
        cs.dropWhile (fun d => d.isAlpha || d.isDigit || d = '_'))
    else none

/-- `^\s*(?:(?:Public|Private|Friend)\s+)?(Sub|Function|Property\s+(?:Get|Let|Set))\s+(?<name>[\p{L}_][\p{L}\p{N}_]*)\s*\(`
(source line 194); returns the procedure name. -/
def matchProcHeader (cs : List Char) : Option String :=
  let d := dropWs cs
  let afterVis :=
    match [['p', 'u', 'b', 'l', 'i', 'c'], ['p', 'r', 'i', 'v', 'a', 't', 'e'],
        ['f', 'r', 'i', 'e', 'n', 'd']].findSome?
        (fun kw =>
          match matchKwCI kw d with
          | some (w :: rest) => if isWsChar w then some (dropWs (w :: rest)) else none
          | _ => none) with
    | some r => r
    | none => d
  let afterKind : Option (List Char) :=
    (match matchKwCI ['s', 'u', 'b'] afterVis with
     | some (w :: rest) => if isWsChar w then some (dropWs (w :: rest)) else none
     | _ => none).orElse fun _ =>
    (match matchKwCI ['f', 'u', 'n', 'c', 't', 'i', 'o', 'n'] afterVis with
     | some (w :: rest) => if isWsChar w then some (dropWs (w :: rest)) else none
     | _ => none).orElse fun _ =>
    (match matchKwCI ['p', 'r', 'o', 'p', 'e', 'r', 't', 'y'] afterVis with
     | some (w :: rest) =>
       if isWsChar w then
         [['g', 'e', 't'], ['l', 'e', 't'], ['s', 'e', 't']].findSome? fun kw =>
           match matchKwCI kw (dropWs (w :: rest)) with
           | some (w2 :: rest2) => if isWsChar w2 then some (dropWs (w2 :: rest2)) else none
           | _ => none
       else none
     | _ => none)
  match afterKind with
  | some r =>
    match takeIdentU r with
    | some (nm, rest) =>
      match dropWs rest with
      | '(' :: _ => some ⟨nm⟩
      | _ => none
    | none => none
  | none => none

/-- Per-file scan of `BuildSymbolTable`'s foreach (source lines
188–198).  Module keys are case-insensitive hashtable keys; the
per-module name set is a case-sensitive `HashSet[string]`. -/
def buildSymbolGo : List FileEntry → List (String × List String) →
    Except ScriptError (List (String × List String))
  | [], table => .ok table
  | f :: fs, table =>
    match ReadFileLines f with
    | .error e => .error e
    | .ok raw =>
      let lines := JoinContinuations raw
      let module := GetModuleName lines f.name
      let table := if tableHasKey table module then table else table ++ [(module, [])]
      let table := lines.foldl
        (fun tb ln =>
          match matchProcHeader ln.data with
          | some nm =>
            let cur := tableGet tb module
            if nm ∈ cur then tb else setKey tb module (cur ++ [nm])
          | none => tb)
        table
      buildSymbolGo fs table

/-- `BuildSymbolTable` (source lines 183–201). -/
def BuildSymbolTable (folder : Folder) : Except ScriptError (List (String × List String)) :=
  if !folder.dirExists then .error .folderNotFound
  else buildSymbolGo (folder.files.filter fun f => hasModuleExt f.name) []

/-! ## Per-procedure fold into the call graph (source lines 995–1012) -/

structure GEdge where
  from_ : String
  to_ : String
  resolved : Bool
deriving Repr, DecidableEq

structure ProcIn where
  name : String
  startLine : Nat
  body : List String
deriving Repr, DecidableEq

/-- `HashSet[string].Add`: dedupe, keeping insertion order. -/
def hashSetAdd (s : List String) (x : String) : List String :=
  if x ∈ s then s else s ++ [x]

/-- The foreach over procedures and their calls that assembles
`callgraph.nodes`/`callgraph.edges`. -/
def foldCallGraph (module : String) (procs : List ProcIn)
    (tbl : List (String × List String)) : List String × List GEdge :=
  procs.foldl
    (fun acc p =>
      let flow := AnalyzeProcedure p.body p.startLine module tbl
      flow.calls.foldl
        (fun acc2 c =>
          let fr := module ++ "." ++ p.name
          (hashSetAdd (hashSetAdd acc2.1 fr) c.target,
            acc2.2 ++ [⟨fr, c.target, c.resolved⟩]))
        acc)
    ([], [])

/-! ## Derived graph measures used by the statements below -/

/-- In-degree of a node id in an edge list. -/
def inDeg (edges : List Edge) (x : String) : Nat :=
  (edges.filter fun e => e.to_ = x).length

/-- A module's declared-procedure membership, as the resolution code
reads it. -/
def declares (tbl : List (String × List String)) (m nm : String) : Bool :=
  tableHasKey tbl m && listContainsCI (tableGet tbl m) nm

/-! ## Lemmas: decimal rendering is injective, generated ids are fresh -/

def natDigitsVal : List Nat → Nat
  | [] => 0
  | d :: ds => d + 10 * natDigitsVal ds

lemma natDigitsRev_val : ∀ fuel n, n ≤ fuel → natDigitsVal (natDigitsRev fuel n) = n := by
  intro fuel
  induction fuel with
  | zero =>
    intro n h
    have : n = 0 := Nat.le_zero.mp h
    subst this
    rfl
  | succ fuel ih =>
    intro n h
    by_cases h0 : n = 0
    · subst h0; rfl
    · have hdiv : n / 10 ≤ fuel := by
        have := Nat.div_lt_self (Nat.pos_of_ne_zero h0) (by norm_num : 1 < 10)
        omega
      simp only [natDigitsRev, h0, if_false, natDigitsVal, ih (n / 10) hdiv]
      omega

lemma natDigitsRev_lt10 : ∀ fuel n d, d ∈ natDigitsRev fuel n → d < 10 := by
  intro fuel
  induction fuel with
  | zero => intro n d h; simp [natDigitsRev] at h
  | succ fuel ih =>
    intro n d h
    by_cases h0 : n = 0
    · simp [natDigitsRev, h0] at h
    · simp only [natDigitsRev, h0, if_false, List.mem_cons] at h
      rcases h with h | h
      · subst h; exact Nat.mod_lt _ (by norm_num)
      · exact ih _ _ h

lemma digitChar_inj : ∀ d, d < 10 → ∀ e, e < 10 → digitChar d = digitChar e → d = e := by
  decide

lemma map_digitChar_inj :
    ∀ l1 l2 : List Nat, (∀ d ∈ l1, d < 10) → (∀ d ∈ l2, d < 10) →
      l1.map digitChar = l2.map digitChar → l1 = l2 := by
  intro l1
  induction l1 with
  | nil => intro l2 _ _ h; cases l2 <;> simp_all
  | cons a l ih =>
    intro l2 h1 h2 h
    cases l2 with
    | nil => simp at h
    | cons b l' =>
      simp only [List.map_cons, List.cons.injEq] at h
      have hab : a = b :=
        digitChar_inj a (h1 a (by simp)) b (h2 b (by simp)) h.1
      have : l = l' :=
        ih l' (fun d hd => h1 d (by simp [hd])) (fun d hd => h2 d (by simp [hd])) h.2
      simp [hab, this]

lemma natRepr_data_zero : (natRepr 0).data = ['0'] := by decide

lemma natRepr_data_pos {n : Nat} (h : n ≠ 0) :
    (natRepr n).data = ((natDigitsRev n n).map digitChar).reverse := by
  simp [natRepr, h]

lemma digits_eq_of_map_eq {n : Nat} {l : List Nat} (hl : ∀ d ∈ l, d < 10)
    (h : (natDigitsRev n n).map digitChar = l.map digitChar) : natDigitsRev n n = l :=
  map_digitChar_inj _ _ (fun d hd => natDigitsRev_lt10 n n d hd) hl h

lemma natRepr_val_zero {n : Nat} (hn : n ≠ 0)
    (h : (natDigitsRev n n).map digitChar = ['0']) : False := by
  have hmap : (natDigitsRev n n).map digitChar = [0].map digitChar := by
    rw [h]; rfl
  have hdig := digits_eq_of_map_eq (by simp) hmap
  have hv := natDigitsRev_val n n le_rfl
  rw [hdig] at hv
  simp [natDigitsVal] at hv
  exact hn hv.symm

lemma natRepr_inj : ∀ m n : Nat, natRepr m = natRepr n → m = n := by
  intro m n h
  have hd := congrArg String.data h
  by_cases hm : m = 0 <;> by_cases hn : n = 0
  · omega
  · exfalso
    subst hm
    rw [natRepr_data_zero, natRepr_data_pos hn] at hd
    refine natRepr_val_zero hn ?_
    have := congrArg List.reverse hd
    simpa using this.symm
  · exfalso
    subst hn
    rw [natRepr_data_zero, natRepr_data_pos hm] at hd
    refine natRepr_val_zero hm ?_
    have := congrArg List.reverse hd
    simpa using this
  · rw [natRepr_data_pos hm, natRepr_data_pos hn] at hd
    have hmap : (natDigitsRev m m).map digitChar = (natDigitsRev n n).map digitChar := by
      have := congrArg List.reverse hd
      simpa using this
    have hdig := digits_eq_of_map_eq (fun d hd => natDigitsRev_lt10 n n d hd) hmap
    have h1 := natDigitsRev_val m m le_rfl
    have h2 := natDigitsRev_val n n le_rfl
    rw [hdig] at h1
    omega

lemma candidate_inj (base : String) : ∀ j k : Nat,
    base ++ "_" ++ natRepr j = base ++ "_" ++ natRepr k → j = k := by
  intro j k h
  apply natRepr_inj
  have hd := congrArg String.data h
  simp only [String.data_append] at hd
  have := List.append_cancel_left hd
  exact String.ext this

lemma nextFreeAux_spec (used : List String) (base : String) :
    ∀ fuel idx,
      (∀ j, idx ≤ j → j < idx + fuel → (base ++ "_" ++ natRepr j) ∈ used) ∨
        nextFreeAux used base idx fuel ∉ used := by
  intro fuel
  induction fuel with
  | zero =>
    intro idx
    left
    intro j h1 h2
    omega
  | succ fuel ih =>
    intro idx
    by_cases hc : (base ++ "_" ++ natRepr idx) ∈ used
    · rcases ih (idx + 1) with hl | hr
      · left
        intro j h1 h2
        rcases Nat.eq_or_lt_of_le h1 with rfl | hlt
        · exact hc
        · exact hl j hlt (by omega)
      · right
        simpa [nextFreeAux, hc] using hr
    · right
      simpa [nextFreeAux, hc] using hc

/-- The id chosen by `AddNode` — `base` when unused, otherwise the
first free suffixed candidate. -/
def addNodeId (used : List String) (base : String) : String :=
  if base ∈ used then nextFreeAux used base 2 (used.length + 1) else base

lemma addNodeId_fresh (used : List String) (base : String) (hnd : used.Nodup) :
    addNodeId used base ∉ used := by
  unfold addNodeId
  split
  · rcases nextFreeAux_spec used base (used.length + 1) 2 with hl | hr
    · exfalso
      set cand : Nat → String := fun j => base ++ "_" ++ natRepr j with hcand
      have hsub : ((List.range' 2 (used.length + 1)).map cand) ⊆ used := by
        intro x hx
        rcases List.mem_map.mp hx with ⟨j, hj, rfl⟩
        rcases List.mem_range'_1.mp hj with ⟨hj1, hj2⟩
        exact hl j hj1 hj2
      have hinj : Function.Injective cand := fun j k h => candidate_inj base j k h
      have hnd2 : ((List.range' 2 (used.length + 1)).map cand).Nodup :=
        (List.nodup_range' 2 (used.length + 1)).map hinj
      have hlen := (hnd2.subperm hsub).length_le
      rw [List.length_map, List.length_range'] at hlen
      omega
    · exact hr
  · assumption

/-! ### Shape lemmas for `AddNode` and `AddEdge` -/

lemma AddNode_fst (st : BState) (ty tx : String) (ln : Nat) :
    (AddNode st ty tx ln).1 = addNodeId st.usedIds ("n" ++ natRepr ln) := rfl

lemma AddNode_usedIds (st : BState) (ty tx : String) (ln : Nat) :
    (AddNode st ty tx ln).2.usedIds = st.usedIds ++ [(AddNode st ty tx ln).1] := rfl

lemma AddNode_nodes (st : BState) (ty tx : String) (ln : Nat) :
    (AddNode st ty tx ln).2.nodes = st.nodes ++
      [⟨(AddNode st ty tx ln).1, ty,
        trimStr (if ciEq tx "Else?.*" || elseExactMatch tx.data then "Else" else tx), ln, none⟩] := rfl

lemma AddNode_edges (st : BState) (ty tx : String) (ln : Nat) :
    (AddNode st ty tx ln).2.edges = st.edges := rfl

lemma AddNode_prevId (st : BState) (ty tx : String) (ln : Nat) :
    (AddNode st ty tx ln).2.prevId = st.prevId := rfl

lemma AddNode_stack (st : BState) (ty tx : String) (ln : Nat) :
    (AddNode st ty tx ln).2.stack = st.stack := rfl

lemma AddNode_calls (st : BState) (ty tx : String) (ln : Nat) :
    (AddNode st ty tx ln).2.calls = st.calls := rfl

lemma AddNode_loopSpans (st : BState) (ty tx : String) (ln : Nat) :
    (AddNode st ty tx ln).2.loopSpans = st.loopSpans := rfl

lemma nextFreeAux_data (used : List String) (base : String) :
    ∀ fuel idx, ∃ t, (nextFreeAux used base idx fuel).data = base.data ++ t := by
  intro fuel
  induction fuel with
  | zero =>
    intro idx
    exact ⟨("_" ++ natRepr idx).data, by simp [nextFreeAux, String.data_append]⟩
  | succ fuel ih =>
    intro idx
    by_cases hc : (base ++ "_" ++ natRepr idx) ∈ used
    · simpa [nextFreeAux, hc] using ih (idx + 1)
    · exact ⟨("_" ++ natRepr idx).data, by simp [nextFreeAux, hc, String.data_append]⟩

lemma addNodeId_data (used : List String) (base : String) :
    ∃ t, (addNodeId used base).data = base.data ++ t := by
  unfold addNodeId
  split
  · exact nextFreeAux_data used base (used.length + 1) 2
  · exact ⟨[], by simp⟩

/-- Every generated node id starts with `n` and hence is not
whitespace-only. -/
lemma AddNode_fst_not_ws (st : BState) (ty tx : String) (ln : Nat) :
    isNullOrWhiteSpace (AddNode st ty tx ln).1 = false := by
  rw [AddNode_fst]
  rcases addNodeId_data st.usedIds ("n" ++ natRepr ln) with ⟨t, ht⟩
  have hdata : ("n" ++ natRepr ln).data = 'n' :: (natRepr ln).data := by
    simp [String.data_append]
  unfold isNullOrWhiteSpace
  rw [ht, hdata]
  simp [isWsChar]

lemma AddNode_fst_fresh (st : BState) (ty tx : String) (ln : Nat)
    (hnd : st.usedIds.Nodup) : (AddNode st ty tx ln).1 ∉ st.usedIds := by
  rw [AddNode_fst]
  exact addNodeId_fresh _ _ hnd

lemma AddEdge_nodes (st : BState) (f t : Option String) (l : String) :
    (AddEdge st f t l).nodes = st.nodes := by
  unfold AddEdge
  rcases f with _ | f <;> rcases t with _ | t <;> simp only
  split <;> rfl

lemma AddEdge_usedIds (st : BState) (f t : Option String) (l : String) :
    (AddEdge st f t l).usedIds = st.usedIds := by
  unfold AddEdge
  rcases f with _ | f <;> rcases t with _ | t <;> simp only
  split <;> rfl

lemma AddEdge_prevId (st : BState) (f t : Option String) (l : String) :
    (AddEdge st f t l).prevId = st.prevId := by
  unfold AddEdge
  rcases f with _ | f <;> rcases t with _ | t <;> simp only
  split <;> rfl

lemma AddEdge_stack (st : BState) (f t : Option String) (l : String) :
    (AddEdge st f t l).stack = st.stack := by
  unfold AddEdge
  rcases f with _ | f <;> rcases t with _ | t <;> simp only
  split <;> rfl

lemma AddEdge_calls (st : BState) (f t : Option String) (l : String) :
    (AddEdge st f t l).calls = st.calls := by
  unfold AddEdge
  rcases f with _ | f <;> rcases t with _ | t <;> simp only
  split <;> rfl

lemma AddNode_labels (st : BState) (ty tx : String) (ln : Nat) :
    (AddNode st ty tx ln).2.labels = st.labels := rfl

lemma AddNode_labelNodeMap (st : BState) (ty tx : String) (ln : Nat) :
    (AddNode st ty tx ln).2.labelNodeMap = st.labelNodeMap := rfl

lemma AddEdge_labels (st : BState) (f t : Option String) (l : String) :
    (AddEdge st f t l).labels = st.labels := by
  unfold AddEdge
  rcases f with _ | f <;> rcases t with _ | t <;> simp only
  split <;> rfl

lemma AddEdge_labelNodeMap (st : BState) (f t : Option String) (l : String) :
    (AddEdge st f t l).labelNodeMap = st.labelNodeMap := by
  unfold AddEdge
  rcases f with _ | f <;> rcases t with _ | t <;> simp only
  split <;> rfl

lemma AddEdge_loopSpans (st : BState) (f t : Option String) (l : String) :
    (AddEdge st f t l).loopSpans = st.loopSpans := by
  unfold AddEdge
  rcases f with _ | f <;> rcases t with _ | t <;> simp only
  split <;> rfl

/-- Edges after `AddEdge`: either an old edge, or the appended one with
both endpoints present and non-whitespace. -/
lemma mem_AddEdge_edges {st : BState} {f t : Option String} {l : String} {e : Edge}
    (h : e ∈ (AddEdge st f t l).edges) :
    e ∈ st.edges ∨
      (f = some e.from_ ∧ t = some e.to_ ∧ e.label = l ∧
        isNullOrWhiteSpace e.from_ = false ∧ isNullOrWhiteSpace e.to_ = false) := by
  unfold AddEdge at h
  rcases f with _ | f <;> rcases t with _ | t <;> simp only at h
  · exact Or.inl h
  · exact Or.inl h
  · exact Or.inl h
  · split at h
    · exact Or.inl h
    · rename_i hws
      rw [List.mem_append] at h
      rcases h with h | h
      · exact Or.inl h
      · right
        simp only [List.mem_singleton] at h
        subst h
        simp only [Bool.or_eq_true, not_or] at hws
        push_neg at hws
        refine ⟨rfl, rfl, rfl, ?_, ?_⟩ <;> simp_all [Bool.not_eq_true]

/-! ## The unconditional builder invariant

Carried through every classification branch: node ids are generated
without duplicates and never whitespace; every emitted edge has
non-whitespace endpoints; edge labels come from the fixed vocabulary,
and `goto`-labelled edges always leave a `goto`-typed node. -/

structure Inv0core (used : List String) (nodes : List Node) (edges : List Edge) : Prop where
  used_eq : used = nodes.map (·.id)
  nodup : (nodes.map (·.id)).Nodup
  ids_ws : ∀ x ∈ nodes.map (·.id), isNullOrWhiteSpace x = false
  edge_ws : ∀ e ∈ edges,
    isNullOrWhiteSpace e.from_ = false ∧ isNullOrWhiteSpace e.to_ = false
  edge_label : ∀ e ∈ edges,
    e.label = "" ∨ e.label = "Yes" ∨ e.label = "No" ∨ e.label = "goto"
  goto_from : ∀ e ∈ edges, e.label = "goto" →
    ∃ n ∈ nodes, n.id = e.from_ ∧ n.type = "goto"

/-- `Inv0` reads only the id-set, node list and edge list, so record
updates leaving those fields untouched preserve it definitionally. -/
abbrev Inv0 (st : BState) : Prop := Inv0core st.usedIds st.nodes st.edges

lemma Inv0_AddNode {st : BState} (h : Inv0 st) (ty tx : String) (ln : Nat) :
    Inv0 (AddNode st ty tx ln).2 := by
  have hfresh : (AddNode st ty tx ln).1 ∉ st.nodes.map (·.id) := by
    rw [← h.used_eq]
    exact AddNode_fst_fresh st ty tx ln (h.used_eq ▸ h.nodup)
  refine ⟨?_, ?_, ?_, ?_, ?_, ?_⟩
  · rw [AddNode_usedIds, AddNode_nodes, h.used_eq]
    simp
  · rw [AddNode_nodes]
    simp only [List.map_append, List.map_cons, List.map_nil]
    rw [List.nodup_append]
    refine ⟨h.nodup, List.nodup_singleton _, ?_⟩
    intro x hx hx'
    simp only [List.mem_singleton] at hx'
    subst hx'
    exact hfresh hx
  · rw [AddNode_nodes]
    intro x hx
    simp only [List.map_append, List.map_cons, List.map_nil, List.mem_append,
      List.mem_singleton] at hx
    rcases hx with hx | hx
    · exact h.ids_ws x hx
    · subst hx
      exact AddNode_fst_not_ws st ty tx ln
  · rw [AddNode_edges]; exact h.edge_ws
  · rw [AddNode_edges]; exact h.edge_label
  · rw [AddNode_edges, AddNode_nodes]
    intro e he hl
    obtain ⟨n, hn, h1, h2⟩ := h.goto_from e he hl
    exact ⟨n, List.mem_append_left _ hn, h1, h2⟩

lemma Inv0_AddEdge_plain {st : BState} (h : Inv0 st) (f t : Option String) {l : String}
    (hl : l = "" ∨ l = "Yes" ∨ l = "No") : Inv0 (AddEdge st f t l) := by
  refine ⟨?_, ?_, ?_, ?_, ?_, ?_⟩
  · rw [AddEdge_usedIds, AddEdge_nodes, h.used_eq]
  · rw [AddEdge_nodes]; exact h.nodup
  · rw [AddEdge_nodes]; exact h.ids_ws
  · intro e he
    rcases mem_AddEdge_edges he with he' | ⟨_, _, _, hw1, hw2⟩
    · exact h.edge_ws e he'
    · exact ⟨hw1, hw2⟩
  · intro e he
    rcases mem_AddEdge_edges he with he' | ⟨_, _, hlab, _, _⟩
    · exact h.edge_label e he'
    · rw [hlab]; tauto
  · rw [AddEdge_nodes]
    intro e he hg
    rcases mem_AddEdge_edges he with he' | ⟨_, _, hlab, _, _⟩
    · exact h.goto_from e he' hg
    · exfalso
      rw [hlab] at hg
      rcases hl with h' | h' | h' <;> simp [h'] at hg

lemma Inv0_AddEdge_goto {st : BState} (h : Inv0 st) {g : String} (t : Option String)
    (hg : ∃ n ∈ st.nodes, n.id = g ∧ n.type = "goto") :
    Inv0 (AddEdge st (some g) t "goto") := by
  refine ⟨?_, ?_, ?_, ?_, ?_, ?_⟩
  · rw [AddEdge_usedIds, AddEdge_nodes, h.used_eq]
  · rw [AddEdge_nodes]; exact h.nodup
  · rw [AddEdge_nodes]; exact h.ids_ws
  · intro e he
    rcases mem_AddEdge_edges he with he' | ⟨_, _, _, hw1, hw2⟩
    · exact h.edge_ws e he'
    · exact ⟨hw1, hw2⟩
  · intro e he
    rcases mem_AddEdge_edges he with he' | ⟨_, _, hlab, _, _⟩
    · exact h.edge_label e he'
    · rw [hlab]; tauto
  · rw [AddEdge_nodes]
    intro e he hlabel
    rcases mem_AddEdge_edges he with he' | ⟨hf, _, _, _, _⟩
    · exact h.goto_from e he' hlabel
    · obtain ⟨n, hn, h1, h2⟩ := hg
      refine ⟨n, hn, ?_, h2⟩
      rw [h1]
      exact Option.some.inj hf

lemma Inv0_foldl_AddEdge (jid : String) :
    ∀ (ends : List String) (st : BState), Inv0 st →
      Inv0 (ends.foldl (fun s e => AddEdge s (some e) (some jid) "") st) := by
  intro ends
  induction ends with
  | nil => intro st h; exact h
  | cons a es ih =>
    intro st h
    exact ih _ (Inv0_AddEdge_plain h _ _ (by tauto))

lemma Inv0_stepOneLineIf (st : BState) (ln : Nat) (c t : String) (h : Inv0 st) :
    Inv0 (stepOneLineIf st ln c t) := by
  unfold stepOneLineIf
  dsimp only
  split
  · exact Inv0_AddEdge_plain (Inv0_AddNode (Inv0_AddEdge_plain
      (Inv0_AddNode (Inv0_AddEdge_plain (Inv0_AddNode h _ _ _) _ _ (by tauto)) _ _ _)
      _ _ (by tauto)) _ _ _) _ _ (by tauto)
  · exact Inv0_AddEdge_plain (Inv0_AddNode (Inv0_AddEdge_plain
      (Inv0_AddNode (Inv0_AddEdge_plain (Inv0_AddNode h _ _ _) _ _ (by tauto)) _ _ _)
      _ _ (by tauto)) _ _ _) _ _ (by tauto)

lemma Inv0_stepBlockIf (st : BState) (ln : Nat) (g1 : String) (h : Inv0 st) :
    Inv0 (stepBlockIf st ln g1) := by
  unfold stepBlockIf
  exact Inv0_AddEdge_plain (Inv0_AddNode h _ _ _) _ _ (by tauto)

lemma Inv0_stepElseIf (st : BState) (ln : Nat) (g1 : String) (h : Inv0 st) :
    Inv0 (stepElseIf st ln g1) := by
  unfold stepElseIf
  split
  · exact Inv0_AddEdge_plain (Inv0_AddNode h _ _ _) _ _ (by tauto)
  · exact h

lemma Inv0_stepElse (st : BState) (ln : Nat) (h : Inv0 st) :
    Inv0 (stepElse st ln) := by
  unfold stepElse
  split
  · dsimp only
    split
    · exact Inv0_AddEdge_plain (Inv0_AddNode h _ _ _) _ _ (by tauto)
    · exact h
  · exact h

lemma Inv0_stepEndIf (st : BState) (ln : Nat) (h : Inv0 st) :
    Inv0 (stepEndIf st ln) := by
  unfold stepEndIf
  split
  · dsimp only
    split
    · exact Inv0_AddEdge_plain (Inv0_foldl_AddEdge _ _ _ (by exact Inv0_AddNode h _ _ _))
        _ _ (by tauto)
    · exact Inv0_foldl_AddEdge _ _ _ (by exact Inv0_AddNode h _ _ _)
  · exact h

lemma Inv0_stepDo (st : BState) (ln : Nat) (s : String) (h : Inv0 st) :
    Inv0 (stepDo st ln s) := by
  unfold stepDo
  exact Inv0_AddEdge_plain (Inv0_AddNode h _ _ _) _ _ (by tauto)

lemma Inv0_stepLoop (st : BState) (ln : Nat) (h : Inv0 st) :
    Inv0 (stepLoop st ln) := by
  unfold stepLoop
  have h1 : ∀ stk, Inv0 { st with stack := stk } := fun _ => h
  split
  · exact Inv0_AddEdge_plain (Inv0_AddNode (h1 _) _ _ _) _ _ (by tauto)
  · exact h1 _

lemma Inv0_stepFor (st : BState) (ln : Nat) (g1 : String) (h : Inv0 st) :
    Inv0 (stepFor st ln g1) := by
  unfold stepFor
  exact Inv0_AddEdge_plain (Inv0_AddNode h _ _ _) _ _ (by tauto)

lemma Inv0_stepNext (st : BState) (ln : Nat) (h : Inv0 st) :
    Inv0 (stepNext st ln) := by
  unfold stepNext
  have h1 : ∀ stk, Inv0 { st with stack := stk } := fun _ => h
  split
  · exact Inv0_AddEdge_plain (Inv0_AddNode (h1 _) _ _ _) _ _ (by tauto)
  · exact h

lemma Inv0_stepSelect (st : BState) (ln : Nat) (g1 : String) (h : Inv0 st) :
    Inv0 (stepSelect st ln g1) := by
  unfold stepSelect
  exact Inv0_AddEdge_plain (Inv0_AddNode h _ _ _) _ _ (by tauto)

lemma Inv0_stepCaseCommon (st : BState) (ln : Nat) (tx : String) (h : Inv0 st) :
    Inv0 (stepCaseCommon st ln tx) := by
  unfold stepCaseCommon
  split
  · split
    · exact Inv0_AddEdge_plain (Inv0_AddNode h _ _ _) _ _ (by tauto)
    · exact h
  · exact h

lemma Inv0_stepEndSelect (st : BState) (ln : Nat) (h : Inv0 st) :
    Inv0 (stepEndSelect st ln) := by
  unfold stepEndSelect
  dsimp only
  have h1 : ∀ stk, Inv0 { st with stack := stk } := fun _ => h
  split
  · split
    · exact Inv0_AddEdge_plain
        (Inv0_foldl_AddEdge _ _ _ (by exact Inv0_AddNode (h1 _) _ _ _)) _ _ (by tauto)
    · exact Inv0_foldl_AddEdge _ _ _ (by exact Inv0_AddNode (h1 _) _ _ _)
  · exact Inv0_AddEdge_plain (Inv0_AddNode (h1 _) _ _ _) _ _ (by tauto)

lemma Inv0_stepWith (st : BState) (ln : Nat) (g1 : String) (h : Inv0 st) :
    Inv0 (stepWith st ln g1) := by
  unfold stepWith
  exact Inv0_AddEdge_plain (Inv0_AddNode h _ _ _) _ _ (by tauto)

lemma Inv0_stepEndWith (st : BState) (ln : Nat) (h : Inv0 st) :
    Inv0 (stepEndWith st ln) := by
  unfold stepEndWith
  dsimp only
  have h1 : ∀ stk, Inv0 { st with stack := stk } := fun _ => h
  rcases htop : (popUntilKind st.stack "With").1 with _ | f
  · simp only [htop]
    exact h1 _
  · simp only [htop]
    exact Inv0_AddEdge_plain (Inv0_AddNode (h1 _) _ _ _) _ _ (by tauto)

lemma Inv0_stepGoto (cfg : Config) (st : BState) (ln : Nat) (s lbl : String) (h : Inv0 st) :
    Inv0 (stepGoto cfg st ln s lbl) := by
  unfold stepGoto
  dsimp only
  have h1 : Inv0 (AddEdge (AddNode st "goto" s ln).2 (AddNode st "goto" s ln).2.prevId
      (some (AddNode st "goto" s ln).1) "") :=
    Inv0_AddEdge_plain (Inv0_AddNode h _ _ _) _ _ (by tauto)
  have hmem : ∃ n ∈ (AddEdge (AddNode st "goto" s ln).2 (AddNode st "goto" s ln).2.prevId
      (some (AddNode st "goto" s ln).1) "").nodes,
      n.id = (AddNode st "goto" s ln).1 ∧ n.type = "goto" := by
    rw [AddEdge_nodes, AddNode_nodes]
    exact ⟨_, List.mem_append_right _ (List.mem_singleton.mpr rfl), rfl, rfl⟩
  simp only [AddEdge_labelNodeMap, AddEdge_labels, AddNode_labelNodeMap, AddNode_labels]
  rcases hm1 : getKey st.labelNodeMap (toLowerStr lbl) with _ | nid
  · simp only [hm1]
    rcases hm2 : getKey st.labels (toLowerStr lbl) with _ | li
    · simp only [hm2]
      exact h1
    · simp only [hm2]
      exact Inv0_AddEdge_goto h1 _ hmem
  · simp only [hm1]
    exact Inv0_AddEdge_goto h1 _ hmem

lemma Inv0_stepLabel (st : BState) (ln i : Nat) (lbl : String) (h : Inv0 st) :
    Inv0 (stepLabel st ln i lbl) := by
  unfold stepLabel
  exact Inv0_AddNode h _ _ _

lemma Inv0_stepTerminal (st : BState) (ln : Nat) (s : String) (h : Inv0 st) :
    Inv0 (stepTerminal st ln s) := by
  unfold stepTerminal
  dsimp only
  split
  · exact Inv0_AddEdge_plain (Inv0_AddNode h _ _ _) _ _ (by tauto)
  · exact Inv0_AddEdge_plain (Inv0_AddNode h _ _ _) _ _ (by tauto)

lemma Inv0_connectFromContext (st : BState) (newId : String) (h : Inv0 st) :
    Inv0 (connectFromContext st newId) := by
  unfold connectFromContext
  split
  · split
    · exact Inv0_AddEdge_plain h _ _ (by tauto)
    · split
      · split
        · exact Inv0_AddEdge_plain h _ _ (by tauto)
        · exact h
      · exact h
  · exact Inv0_AddEdge_plain h _ _ (by tauto)

lemma Inv0_stepCalls (cfg : Config) (st : BState) (ln : Nat) (s : String)
    (hits : List Hit) (h : Inv0 st) : Inv0 (stepCalls cfg st ln s hits) := by
  unfold stepCalls
  dsimp only
  have hfold : Inv0 (hits.foldl
      (fun s' h' =>
        let tr := resolveCall cfg.SymbolTable cfg.ThisModule h'
        { s' with calls := s'.calls ++ [⟨tr.1, tr.2, ln⟩] }) st) := by
    induction hits generalizing st with
    | nil => exact h
    | cons a as ih => exact ih _ h
  exact Inv0_connectFromContext _ _ (Inv0_AddNode hfold _ _ _)

lemma Inv0_stepOp (st : BState) (ln : Nat) (s : String) (h : Inv0 st) :
    Inv0 (stepOp st ln s) := by
  unfold stepOp
  exact Inv0_connectFromContext _ _ (Inv0_AddNode h _ _ _)

lemma Inv0_ptCalls (cfg : Config) (st : BState) (ln : Nat) (s : String) (h : Inv0 st) :
    Inv0 (ptCalls cfg st ln s) := by
  unfold ptCalls
  split
  · exact Inv0_stepOp _ _ _ h
  · exact Inv0_stepCalls _ _ _ _ _ h

lemma Inv0_ptTerm (cfg : Config) (st : BState) (ln : Nat) (s : String) (h : Inv0 st) :
    Inv0 (ptTerm cfg st ln s) := by
  unfold ptTerm
  split
  · exact Inv0_stepTerminal _ _ _ h
  split
  · exact Inv0_stepTerminal _ _ _ h
  · exact Inv0_ptCalls _ _ _ _ h

lemma Inv0_ptGotoLabel (cfg : Config) (st : BState) (i ln : Nat) (s : String) (h : Inv0 st) :
    Inv0 (ptGotoLabel cfg st i ln s) := by
  unfold ptGotoLabel
  split
  · exact Inv0_stepGoto _ _ _ _ _ h
  split
  · exact Inv0_stepLabel _ _ _ _ h
  · exact Inv0_ptTerm _ _ _ _ h

lemma Inv0_ptWith (cfg : Config) (st : BState) (i ln : Nat) (s : String) (h : Inv0 st) :
    Inv0 (ptWith cfg st i ln s) := by
  unfold ptWith
  split
  · exact Inv0_stepWith _ _ _ h
  split
  · exact Inv0_stepEndWith _ _ h
  · exact Inv0_ptGotoLabel _ _ _ _ _ h

lemma Inv0_ptSelect (cfg : Config) (st : BState) (i ln : Nat) (s : String) (h : Inv0 st) :
    Inv0 (ptSelect cfg st i ln s) := by
  unfold ptSelect
  split
  · exact Inv0_stepSelect _ _ _ h
  split
  · exact Inv0_stepCaseCommon _ _ _ h
  split
  · exact Inv0_stepCaseCommon _ _ _ h
  split
  · exact Inv0_stepEndSelect _ _ h
  · exact Inv0_ptWith _ _ _ _ _ h

lemma Inv0_ptLoops (cfg : Config) (st : BState) (i ln : Nat) (s : String) (h : Inv0 st) :
    Inv0 (ptLoops cfg st i ln s) := by
  unfold ptLoops
  split
  · exact Inv0_stepDo _ _ _ h
  split
  · exact Inv0_stepLoop _ _ h
  split
  · exact Inv0_stepFor _ _ _ h
  split
  · exact Inv0_stepNext _ _ h
  · exact Inv0_ptSelect _ _ _ _ _ h

lemma Inv0_ptIf (cfg : Config) (st : BState) (i ln : Nat) (s : String) (h : Inv0 st) :
    Inv0 (ptIf cfg st i ln s) := by
  unfold ptIf
  split
  · exact Inv0_stepOneLineIf _ _ _ _ h
  split
  · exact Inv0_stepBlockIf _ _ _ h
  split
  · exact Inv0_stepElseIf _ _ _ h
  split
  · exact Inv0_stepElse _ _ h
  split
  · exact Inv0_stepEndIf _ _ h
  · exact Inv0_ptLoops _ _ _ _ _ h

lemma Inv0_processTrim (cfg : Config) (st : BState) (i ln : Nat) (s : String) (h : Inv0 st) :
    Inv0 (processTrim cfg st i ln s) := by
  unfold processTrim
  split
  · exact h
  split
  · exact h
  · exact Inv0_ptIf _ _ _ _ _ h

lemma Inv0_processLine (cfg : Config) (st : BState) (i : Nat) (l : String) (h : Inv0 st) :
    Inv0 (processLine cfg st i l) :=
  Inv0_processTrim cfg st i _ _ h

lemma Inv0_processLines (cfg : Config) :
    ∀ (ls : List String) (st : BState) (i : Nat), Inv0 st →
      Inv0 (processLines cfg st i ls) := by
  intro ls
  induction ls with
  | nil => intro st i h; exact h
  | cons l ls ih =>
    intro st i h
    exact ih _ _ (Inv0_processLine cfg st i l h)

lemma Inv0_init (labels0 : List (String × Nat)) : Inv0 (initState labels0) := by
  refine ⟨rfl, List.nodup_nil, ?_, ?_, ?_, ?_⟩ <;> intro e he <;>
    exact absurd he (List.not_mem_nil e)

lemma Inv0_finalState (body : List String) (off : Nat) (m : String)
    (tbl : List (String × List String)) : Inv0 (finalState body off m tbl) := by
  unfold finalState
  dsimp only
  refine Inv0_AddEdge_plain (Inv0_AddNode ?_ _ _ _) _ _ (by tauto)
  refine Inv0_processLines _ _ _ _ ?_
  exact Inv0_AddNode (Inv0_init _) _ _ _

lemma AnalyzeProcedure_nodes (body : List String) (off : Nat) (m : String)
    (tbl : List (String × List String)) :
    (AnalyzeProcedure body off m tbl).nodes = (finalState body off m tbl).nodes := rfl

lemma AnalyzeProcedure_edges (body : List String) (off : Nat) (m : String)
    (tbl : List (String × List String)) :
    (AnalyzeProcedure body off m tbl).edges = (finalState body off m tbl).edges := rfl

/-! ## The conditional in-degree invariant

For bodies without `Exit`/`Return`/`Err.Raise` lines, without label
declarations and without `ElseIf` lines, the cursor `prevId` never
becomes null and every node except `start` acquires an incoming edge.
The stack bookkeeping needed: `If`-frame conditions and pending branch
ends are existing node ids, and a cursor still parked on an `If`
condition implies its `Yes` edge is unused and no `Else` was seen. -/

def idsOf (nodes : List Node) : List String := nodes.map (·.id)

structure StackOK (nodes : List Node) (prevId : Option String) (stack : List Frame) : Prop where
  if_ok : ∀ cond hasElse line ends ny nn ne hid,
    Frame.ifF cond hasElse line ends ny nn ne hid ∈ stack →
    cond ∈ idsOf nodes ∧ (∀ x ∈ ends, x ∈ idsOf nodes) ∧
      (prevId = some cond → ny = true ∧ hasElse = false)
  sel_ok : ∀ head line ends inCase,
    Frame.selF head line ends inCase ∈ stack →
    head ∈ idsOf nodes ∧ ∀ x ∈ ends, x ∈ idsOf nodes

def IndegOK (nodes : List Node) (edges : List Edge) : Prop :=
  ∀ n ∈ nodes, n.type = "start" ∨ 1 ≤ inDeg edges n.id

structure InvCcore (used : List String) (nodes : List Node) (edges : List Edge)
    (prevId : Option String) (stack : List Frame) : Prop where
  base : Inv0core used nodes edges
  prev_mem : ∃ p, prevId = some p ∧ p ∈ idsOf nodes
  stack_ok : StackOK nodes prevId stack
  indeg : IndegOK nodes edges

abbrev InvC (st : BState) : Prop :=
  InvCcore st.usedIds st.nodes st.edges st.prevId st.stack

lemma StackOK.mono {nodes nodes' : List Node} {prev : Option String} {stack : List Frame}
    (hsub : ∀ x ∈ idsOf nodes, x ∈ idsOf nodes')
    (h : StackOK nodes prev stack) : StackOK nodes' prev stack := by
  refine ⟨?_, ?_⟩
  · intro cond hasElse line ends ny nn ne hid hf
    obtain ⟨h1, h2, h3⟩ := h.if_ok cond hasElse line ends ny nn ne hid hf
    exact ⟨hsub _ h1, fun x hx => hsub _ (h2 x hx), h3⟩
  · intro head line ends inCase hf
    obtain ⟨h1, h2⟩ := h.sel_ok head line ends inCase hf
    exact ⟨hsub _ h1, fun x hx => hsub _ (h2 x hx)⟩

lemma StackOK.prev_fresh {nodes : List Node} {prev : Option String} {stack : List Frame}
    (h : StackOK nodes prev stack) {q : String} (hq : q ∉ idsOf nodes) :
    StackOK nodes (some q) stack := by
  refine ⟨?_, ?_⟩
  · intro cond hasElse line ends ny nn ne hid hf
    obtain ⟨h1, h2, _⟩ := h.if_ok cond hasElse line ends ny nn ne hid hf
    refine ⟨h1, h2, ?_⟩
    intro hpc
    exfalso
    exact hq ((Option.some.inj hpc) ▸ h1)
  · exact h.sel_ok

lemma StackOK.subset {nodes : List Node} {prev : Option String} {stack stack' : List Frame}
    (hsub : ∀ f ∈ stack', f ∈ stack) (h : StackOK nodes prev stack) :
    StackOK nodes prev stack' := by
  refine ⟨?_, ?_⟩
  · intro cond hasElse line ends ny nn ne hid hf
    exact h.if_ok cond hasElse line ends ny nn ne hid (hsub _ hf)
  · intro head line ends inCase hf
    exact h.sel_ok head line ends inCase (hsub _ hf)

lemma popUntilKind_subset : ∀ (stack : List Frame) (k : String) (f : Frame),
    f ∈ (popUntilKind stack k).2 → f ∈ stack := by
  intro stack
  induction stack with
  | nil => intro k f hf; simpa [popUntilKind] using hf
  | cons g rest ih =>
    intro k f hf
    unfold popUntilKind at hf
    split at hf
    · exact List.mem_cons_of_mem _ hf
    · exact List.mem_cons_of_mem _ (ih k f hf)

lemma inDeg_append (es es' : List Edge) (x : String) :
    inDeg (es ++ es') x = inDeg es x + inDeg es' x := by
  simp [inDeg, List.filter_append]

lemma IndegOK_append {nodes : List Node} {edges : List Edge} (h : IndegOK nodes edges)
    (nds : List Node) (extra : List Edge)
    (hcover : ∀ n ∈ nds, n.type = "start" ∨ 1 ≤ inDeg extra n.id) :
    IndegOK (nodes ++ nds) (edges ++ extra) := by
  intro n hn
  rcases List.mem_append.mp hn with hn | hn
  · refine (h n hn).imp id fun hle => ?_
    rw [inDeg_append]
    omega
  · refine (hcover n hn).imp id fun hle => ?_
    rw [inDeg_append]
    omega

lemma AddEdge_edges_some {st : BState} {f t : String} (l : String)
    (hf : isNullOrWhiteSpace f = false) (ht : isNullOrWhiteSpace t = false) :
    (AddEdge st (some f) (some t) l).edges = st.edges ++ [⟨f, t, l⟩] := by
  unfold AddEdge
  simp [hf, ht]

lemma inDeg_single (f t l : String) : inDeg [⟨f, t, l⟩] t = 1 := by
  simp [inDeg]

/-- Fresh id of `AddNode`, phrased against the node list. -/
lemma AddNode_fst_fresh_ids {st : BState} (h : Inv0 st) (ty tx : String) (ln : Nat) :
    (AddNode st ty tx ln).1 ∉ idsOf st.nodes := by
  rw [idsOf, ← h.used_eq]
  exact AddNode_fst_fresh st ty tx ln (h.used_eq ▸ h.nodup)

/-- The node appended by `AddNode`, as an explicit witness. -/
lemma AddNode_shape (st : BState) (ty tx : String) (ln : Nat) :
    ∃ nd : Node, (AddNode st ty tx ln).2.nodes = st.nodes ++ [nd] ∧
      nd.id = (AddNode st ty tx ln).1 ∧ nd.type = ty :=
  ⟨⟨(AddNode st ty tx ln).1, ty,
      trimStr (if ciEq tx "Else?.*" || elseExactMatch tx.data then "Else" else tx), ln, none⟩,
    rfl, rfl, rfl⟩

/-- Shape of the composite "append node, chain from an explicit
non-whitespace source id". -/
lemma chain_shape_from {st : BState} (ty tx : String) (ln : Nat) (lab : String)
    {f : String} (hf : isNullOrWhiteSpace f = false) :
    ∃ nd : Node,
      (AddEdge (AddNode st ty tx ln).2 (some f)
        (some (AddNode st ty tx ln).1) lab).nodes = st.nodes ++ [nd] ∧
      nd.id = (AddNode st ty tx ln).1 ∧ nd.type = ty ∧
      (AddEdge (AddNode st ty tx ln).2 (some f)
        (some (AddNode st ty tx ln).1) lab).edges
        = st.edges ++ [⟨f, (AddNode st ty tx ln).1, lab⟩] ∧
      (AddEdge (AddNode st ty tx ln).2 (some f)
        (some (AddNode st ty tx ln).1) lab).usedIds
        = st.usedIds ++ [(AddNode st ty tx ln).1] := by
  have hcws := AddNode_fst_not_ws st ty tx ln
  refine ⟨⟨(AddNode st ty tx ln).1, ty,
      trimStr (if ciEq tx "Else?.*" || elseExactMatch tx.data then "Else" else tx), ln, none⟩,
    ?_, rfl, rfl, ?_, ?_⟩
  · rw [AddEdge_nodes, AddNode_nodes]
  · rw [AddEdge_edges_some lab hf hcws, AddNode_edges]
  · rw [AddEdge_usedIds, AddNode_usedIds]

/-- Shape of the common composite "append node, chain from cursor":
the new node and the new edge, with everything else untouched. -/
lemma chain_shape {st : BState} (h : Inv0 st) (ty tx : String) (ln : Nat) (lab : String)
    {p : String} (hp : st.prevId = some p) (hpm : p ∈ idsOf st.nodes) :
    ∃ nd : Node,
      (AddEdge (AddNode st ty tx ln).2 (AddNode st ty tx ln).2.prevId
        (some (AddNode st ty tx ln).1) lab).nodes = st.nodes ++ [nd] ∧
      nd.id = (AddNode st ty tx ln).1 ∧ nd.type = ty ∧
      (AddEdge (AddNode st ty tx ln).2 (AddNode st ty tx ln).2.prevId
        (some (AddNode st ty tx ln).1) lab).edges
        = st.edges ++ [⟨p, (AddNode st ty tx ln).1, lab⟩] ∧
      (AddEdge (AddNode st ty tx ln).2 (AddNode st ty tx ln).2.prevId
        (some (AddNode st ty tx ln).1) lab).usedIds
        = st.usedIds ++ [(AddNode st ty tx ln).1] := by
  have hpws : isNullOrWhiteSpace p = false := h.ids_ws p hpm
  have hrw : (AddNode st ty tx ln).2.prevId = some p := by rw [AddNode_prevId, hp]
  rw [hrw]
  exact chain_shape_from ty tx ln lab hpws

lemma foldl_AddEdge_shape (jid : String) (hj : isNullOrWhiteSpace jid = false) :
    ∀ (ends : List String) (st : BState), (∀ x ∈ ends, isNullOrWhiteSpace x = false) →
      (ends.foldl (fun s e => AddEdge s (some e) (some jid) "") st).edges
          = st.edges ++ ends.map (fun e => ⟨e, jid, ""⟩) ∧
        (ends.foldl (fun s e => AddEdge s (some e) (some jid) "") st).nodes = st.nodes ∧
        (ends.foldl (fun s e => AddEdge s (some e) (some jid) "") st).usedIds = st.usedIds ∧
        (ends.foldl (fun s e => AddEdge s (some e) (some jid) "") st).prevId = st.prevId ∧
        (ends.foldl (fun s e => AddEdge s (some e) (some jid) "") st).stack = st.stack := by
  intro ends
  induction ends with
  | nil => intro st _; simp
  | cons a es ih =>
    intro st hws
    have ha : isNullOrWhiteSpace a = false := hws a (by simp)
    obtain ⟨h1, h2, h3, h4, h5⟩ := ih (AddEdge st (some a) (some jid) "")
      (fun x hx => hws x (by simp [hx]))
    refine ⟨?_, ?_, ?_, ?_, ?_⟩
    · rw [List.foldl_cons, h1, AddEdge_edges_some _ ha hj]
      simp
    · rw [List.foldl_cons, h2, AddEdge_nodes]
    · rw [List.foldl_cons, h3, AddEdge_usedIds]
    · rw [List.foldl_cons, h4, AddEdge_prevId]
    · rw [List.foldl_cons, h5, AddEdge_stack]

lemma inDeg_map_ends (ends : List String) (jid : String) :
    inDeg (ends.map fun e => Edge.mk e jid "") jid = ends.length := by
  induction ends with
  | nil => rfl
  | cons a es ih => simpa [inDeg, List.filter] using ih

lemma popUntilKind_found_mem : ∀ (stack : List Frame) (k : String) (f : Frame),
    (popUntilKind stack k).1 = some f → f ∈ stack := by
  intro stack
  induction stack with
  | nil => intro k f hf; simp [popUntilKind] at hf
  | cons g rest ih =>
    intro k f hf
    unfold popUntilKind at hf
    split at hf
    · simp only at hf
      exact List.mem_cons.mpr (Or.inl (Option.some.inj hf).symm)
    · exact List.mem_cons_of_mem _ (ih k f hf)

lemma AddEdge_edges_extends (st : BState) (f t : Option String) (l : String) :
    ∃ ex, (AddEdge st f t l).edges = st.edges ++ ex := by
  unfold AddEdge
  rcases f with _ | f <;> rcases t with _ | t
  · exact ⟨[], by simp⟩
  · exact ⟨[], by simp⟩
  · exact ⟨[], by simp⟩
  · simp only
    split
    · exact ⟨[], by simp⟩
    · exact ⟨[⟨f, t, l⟩], rfl⟩

lemma IndegOK_mono {nodes : List Node} {edges : List Edge} (h : IndegOK nodes edges)
    (ex : List Edge) : IndegOK nodes (edges ++ ex) := by
  intro n hn
  refine (h n hn).imp id fun hle => ?_
  rw [inDeg_append]
  omega

lemma InvC_stepOneLineIf (st : BState) (ln : Nat) (c t : String) (h : InvC st) :
    InvC (stepOneLineIf st ln c t) := by
  obtain ⟨p₀, hp₀, hp₀m⟩ := h.prev_mem
  obtain ⟨nd1, hN1, hnd1id, hnd1ty, hE1, hU1⟩ :=
    chain_shape h.base "cond" ("If " ++ c ++ "?") ln "" hp₀ hp₀m
  have hmain : ∀ ty2 : String, InvC
      { AddEdge
          (AddNode
            (AddEdge
              (AddNode
                (AddEdge (AddNode st "cond" ("If " ++ c ++ "?") ln).2
                  (AddNode st "cond" ("If " ++ c ++ "?") ln).2.prevId
                  (some (AddNode st "cond" ("If " ++ c ++ "?") ln).1) "")
                ty2 t ln).2
              (some (AddNode st "cond" ("If " ++ c ++ "?") ln).1)
              (some (AddNode
                (AddEdge (AddNode st "cond" ("If " ++ c ++ "?") ln).2
                  (AddNode st "cond" ("If " ++ c ++ "?") ln).2.prevId
                  (some (AddNode st "cond" ("If " ++ c ++ "?") ln).1) "")
                ty2 t ln).1) "Yes")
            "join" "End If" ln).2
          (some (AddNode st "cond" ("If " ++ c ++ "?") ln).1)
          (some (AddNode
            (AddEdge
              (AddNode
                (AddEdge (AddNode st "cond" ("If " ++ c ++ "?") ln).2
                  (AddNode st "cond" ("If " ++ c ++ "?") ln).2.prevId
                  (some (AddNode st "cond" ("If " ++ c ++ "?") ln).1) "")
                ty2 t ln).2
              (some (AddNode st "cond" ("If " ++ c ++ "?") ln).1)
              (some (AddNode
                (AddEdge (AddNode st "cond" ("If " ++ c ++ "?") ln).2
                  (AddNode st "cond" ("If " ++ c ++ "?") ln).2.prevId
                  (some (AddNode st "cond" ("If " ++ c ++ "?") ln).1) "")
                ty2 t ln).1) "Yes")
            "join" "End If" ln).1) "No"
        with prevId := some (AddNode
            (AddEdge
              (AddNode
                (AddEdge (AddNode st "cond" ("If " ++ c ++ "?") ln).2
                  (AddNode st "cond" ("If " ++ c ++ "?") ln).2.prevId
                  (some (AddNode st "cond" ("If " ++ c ++ "?") ln).1) "")
                ty2 t ln).2
              (some (AddNode st "cond" ("If " ++ c ++ "?") ln).1)
              (some (AddNode
                (AddEdge (AddNode st "cond" ("If " ++ c ++ "?") ln).2
                  (AddNode st "cond" ("If " ++ c ++ "?") ln).2.prevId
                  (some (AddNode st "cond" ("If " ++ c ++ "?") ln).1) "")
                ty2 t ln).1) "Yes")
            "join" "End If" ln).1 } := by
    intro ty2
    set cid := (AddNode st "cond" ("If " ++ c ++ "?") ln).1 with hcid
    set st2 := AddEdge (AddNode st "cond" ("If " ++ c ++ "?") ln).2
      (AddNode st "cond" ("If " ++ c ++ "?") ln).2.prevId (some cid) "" with hst2
    have h2 : Inv0 st2 := Inv0_AddEdge_plain (Inv0_AddNode h.base _ _ _) _ _ (by tauto)
    have hcidws : isNullOrWhiteSpace cid = false := AddNode_fst_not_ws _ _ _ _
    obtain ⟨nd2, hN2, hnd2id, hnd2ty, hE2, hU2⟩ := @chain_shape_from st2 ty2 t ln "Yes" _ hcidws
    set mid := (AddNode st2 ty2 t ln).1 with hmid
    set st3 := AddEdge (AddNode st2 ty2 t ln).2 (some cid) (some mid) "Yes" with hst3
    have h3 : Inv0 st3 := Inv0_AddEdge_plain (Inv0_AddNode h2 _ _ _) _ _ (by tauto)
    obtain ⟨nd3, hN3, hnd3id, hnd3ty, hE3, hU3⟩ :=
      @chain_shape_from st3 "join" "End If" ln "No" _ hcidws
    set joinId := (AddNode st3 "join" "End If" ln).1 with hjoin
    have hjfresh : joinId ∉ st3.usedIds :=
      AddNode_fst_fresh st3 _ _ _ (h3.used_eq ▸ h3.nodup)
    have hjfresh0 : joinId ∉ idsOf st.nodes := by
      intro hmem
      apply hjfresh
      rw [hU2, hU1]
      exact List.mem_append_left _ (List.mem_append_left _ (h.base.used_eq ▸ hmem))
    refine ⟨?_, ?_, ?_, ?_⟩
    · exact Inv0_AddEdge_plain (Inv0_AddNode h3 _ _ _) _ _ (by tauto)
    · refine ⟨joinId, rfl, ?_⟩
      show joinId ∈ idsOf (AddEdge (AddNode st3 "join" "End If" ln).2 (some cid) (some joinId) "No").nodes
      rw [hN3, idsOf, List.map_append, List.mem_append]
      right
      simp [hnd3id]
    · show StackOK _ (some joinId)
        (AddEdge (AddNode st3 "join" "End If" ln).2 (some cid) (some joinId) "No").stack
      have hstk : (AddEdge (AddNode st3 "join" "End If" ln).2 (some cid) (some joinId) "No").stack
          = st.stack := by
        rw [AddEdge_stack, AddNode_stack, hst3, AddEdge_stack, AddNode_stack, hst2,
          AddEdge_stack, AddNode_stack]
      rw [hstk, hN3, hN2, hN1]
      have hids : ∀ x ∈ idsOf st.nodes, x ∈ idsOf (st.nodes ++ [nd1] ++ [nd2] ++ [nd3]) := by
        intro x hx
        rw [idsOf] at hx ⊢
        simp only [List.map_append, List.mem_append]
        tauto
      exact (h.stack_ok.prev_fresh hjfresh0).mono hids
    · show IndegOK
        (AddEdge (AddNode st3 "join" "End If" ln).2 (some cid) (some joinId) "No").nodes
        (AddEdge (AddNode st3 "join" "End If" ln).2 (some cid) (some joinId) "No").edges
      rw [hN3, hN2, hN1, hE3, hE2, hE1]
      refine IndegOK_append (IndegOK_append (IndegOK_append h.indeg _ _ ?_) _ _ ?_) _ _ ?_
      · intro n hn
        right
        rcases List.mem_singleton.mp hn with rfl
        rw [hnd1id]
        exact le_of_eq (inDeg_single p₀ cid "").symm
      · intro n hn
        right
        rcases List.mem_singleton.mp hn with rfl
        rw [hnd2id]
        exact le_of_eq (inDeg_single cid mid "Yes").symm
      · intro n hn
        right
        rcases List.mem_singleton.mp hn with rfl
        rw [hnd3id]
        exact le_of_eq (inDeg_single cid joinId "No").symm
  unfold stepOneLineIf
  dsimp only
  by_cases hexit : isExitLine t.data
  · rw [if_pos hexit]
    exact hmain "end"
  · rw [if_neg hexit]
    exact hmain "op"

/-- Discharge `InvC` for any state of the common one-node-one-edge
shape. -/
lemma InvC_of_chain (st : BState) (h : InvC st) {st' : BState}
    {nd : Node} {p₀ newId : String} {newStack : List Frame}
    (hbase : Inv0 st')
    (hN : st'.nodes = st.nodes ++ [nd]) (hndid : nd.id = newId)
    (hE : ∃ lab, st'.edges = st.edges ++ [⟨p₀, newId, lab⟩])
    (hP : st'.prevId = some newId)
    (hS : st'.stack = newStack)
    (hstack : StackOK (st.nodes ++ [nd]) (some newId) newStack) :
    InvC st' := by
  refine ⟨hbase, ⟨newId, hP, ?_⟩, ?_, ?_⟩
  · rw [hN, idsOf, List.map_append, List.mem_append]
    right
    simp [hndid]
  · rw [hS, hP, hN]
    exact hstack
  · obtain ⟨lab, hE⟩ := hE
    rw [hN, hE]
    refine IndegOK_append h.indeg _ _ ?_
    intro n hn
    right
    rcases List.mem_singleton.mp hn with rfl
    rw [hndid]
    exact le_of_eq (inDeg_single _ _ _).symm

/-- The old frames remain fine after appending a fresh-id node and
parking the cursor on it. -/
lemma StackOK.after_fresh {st : BState} (h : InvC st) {nd : Node} {newId : String}
    (hfresh : newId ∉ idsOf st.nodes) :
    StackOK (st.nodes ++ [nd]) (some newId) st.stack := by
  refine (h.stack_ok.prev_fresh hfresh).mono ?_
  intro x hx
  rw [idsOf, List.map_append, List.mem_append]
  exact Or.inl hx

lemma InvC_stepBlockIf (st : BState) (ln : Nat) (g1 : String) (h : InvC st) :
    InvC (stepBlockIf st ln g1) := by
  obtain ⟨p₀, hp₀, hp₀m⟩ := h.prev_mem
  obtain ⟨nd, hN, hndid, hndty, hE, hU⟩ :=
    chain_shape h.base "cond" ("If " ++ trimStr g1 ++ "?") ln "" hp₀ hp₀m
  have hfresh := AddNode_fst_fresh_ids h.base "cond" ("If " ++ trimStr g1 ++ "?") ln
  have hN' : (stepBlockIf st ln g1).nodes = st.nodes ++ [nd] := hN
  have hE' : (stepBlockIf st ln g1).edges = st.edges ++
      [⟨p₀, (AddNode st "cond" ("If " ++ trimStr g1 ++ "?") ln).1, ""⟩] := hE
  have hP' : (stepBlockIf st ln g1).prevId =
      some (AddNode st "cond" ("If " ++ trimStr g1 ++ "?") ln).1 := rfl
  have hS' : ∃ hid, (stepBlockIf st ln g1).stack =
      Frame.ifF (AddNode st "cond" ("If " ++ trimStr g1 ++ "?") ln).1 false ln [] true true false
        hid :: st.stack := by
    unfold stepBlockIf
    dsimp only
    exact ⟨_, by rw [AddEdge_stack, AddNode_stack]⟩
  obtain ⟨hid₀, hS'⟩ := hS'
  set cid := (AddNode st "cond" ("If " ++ trimStr g1 ++ "?") ln).1 with hcid
  have hcid_mem : cid ∈ idsOf (st.nodes ++ [nd]) := by
    rw [idsOf, List.map_append, List.mem_append]
    right
    simp [hndid]
  refine ⟨Inv0_stepBlockIf st ln g1 h.base, ?_, ?_, ?_⟩
  · refine ⟨cid, hP', ?_⟩
    rw [hN']
    exact hcid_mem
  · rw [hS', hP', hN']
    have hids : ∀ x ∈ idsOf st.nodes, x ∈ idsOf (st.nodes ++ [nd]) := by
      intro x hx
      rw [idsOf, List.map_append, List.mem_append]
      exact Or.inl hx
    have hold : StackOK (st.nodes ++ [nd]) (some cid) st.stack :=
      (h.stack_ok.prev_fresh hfresh).mono hids
    refine ⟨?_, ?_⟩
    · intro cond hasElse line ends ny nn ne hid hf
      rcases List.mem_cons.mp hf with hf | hf
      · obtain ⟨h1, h2, h3, h4, h5, h6, h7, h8⟩ := Frame.ifF.inj hf.symm
        subst h1 h2 h3 h4 h5 h6
        exact ⟨hcid_mem, by intro x hx; exact absurd hx (List.not_mem_nil x),
          fun _ => ⟨rfl, rfl⟩⟩
      · exact hold.if_ok cond hasElse line ends ny nn ne hid hf
    · intro head line ends inCase hf
      rcases List.mem_cons.mp hf with hf | hf
      · exact absurd hf (by simp)
      · exact hold.sel_ok head line ends inCase hf
  · rw [hN', hE']
    refine IndegOK_append h.indeg _ _ ?_
    intro n hn
    right
    rcases List.mem_singleton.mp hn with rfl
    rw [hndid]
    exact le_of_eq (inDeg_single p₀ cid "").symm

lemma InvC_stepDo (st : BState) (ln : Nat) (s : String) (h : InvC st) :
    InvC (stepDo st ln s) := by
  obtain ⟨p₀, hp₀, hp₀m⟩ := h.prev_mem
  obtain ⟨nd, hN, hndid, hndty, hE, hU⟩ :=
    chain_shape h.base "loop" (splitColonFirst s) ln "" hp₀ hp₀m
  have hfresh := AddNode_fst_fresh_ids h.base "loop" (splitColonFirst s) ln
  have hS : ∃ hid, (stepDo st ln s).stack =
      Frame.doF (AddNode st "loop" (splitColonFirst s) ln).1 ln hid :: st.stack := by
    unfold stepDo
    dsimp only
    exact ⟨_, by rw [AddEdge_stack, AddNode_stack]⟩
  obtain ⟨hid₀, hS⟩ := hS
  refine InvC_of_chain st h (Inv0_stepDo st ln s h.base) hN hndid ⟨"", hE⟩ rfl hS ?_
  refine ⟨?_, ?_⟩
  · intro cond hasElse line ends ny nn ne hid hf
    rcases List.mem_cons.mp hf with hf | hf
    · exact absurd hf (by simp)
    · exact (StackOK.after_fresh h hfresh).if_ok _ _ _ _ _ _ _ _ hf
  · intro head line ends inCase hf
    rcases List.mem_cons.mp hf with hf | hf
    · exact absurd hf (by simp)
    · exact (StackOK.after_fresh h hfresh).sel_ok _ _ _ _ hf

lemma InvC_stepFor (st : BState) (ln : Nat) (g1 : String) (h : InvC st) :
    InvC (stepFor st ln g1) := by
  obtain ⟨p₀, hp₀, hp₀m⟩ := h.prev_mem
  obtain ⟨nd, hN, hndid, hndty, hE, hU⟩ :=
    chain_shape h.base "loop" ("For " ++ trimStr g1) ln "" hp₀ hp₀m
  have hfresh := AddNode_fst_fresh_ids h.base "loop" ("For " ++ trimStr g1) ln
  have hS : ∃ hid, (stepFor st ln g1).stack =
      Frame.forF (AddNode st "loop" ("For " ++ trimStr g1) ln).1 ln (trimStr g1) hid
        :: st.stack := by
    unfold stepFor
    dsimp only
    exact ⟨_, by rw [AddEdge_stack, AddNode_stack]⟩
  obtain ⟨hid₀, hS⟩ := hS
  refine InvC_of_chain st h (Inv0_stepFor st ln g1 h.base) hN hndid ⟨"", hE⟩ rfl hS ?_
  refine ⟨?_, ?_⟩
  · intro cond hasElse line ends ny nn ne hid hf
    rcases List.mem_cons.mp hf with hf | hf
    · exact absurd hf (by simp)
    · exact (StackOK.after_fresh h hfresh).if_ok _ _ _ _ _ _ _ _ hf
  · intro head line ends inCase hf
    rcases List.mem_cons.mp hf with hf | hf
    · exact absurd hf (by simp)
    · exact (StackOK.after_fresh h hfresh).sel_ok _ _ _ _ hf

lemma InvC_stepSelect (st : BState) (ln : Nat) (g1 : String) (h : InvC st) :
    InvC (stepSelect st ln g1) := by
  obtain ⟨p₀, hp₀, hp₀m⟩ := h.prev_mem
  obtain ⟨nd, hN, hndid, hndty, hE, hU⟩ :=
    chain_shape h.base "switch" ("Select Case " ++ trimStr g1) ln "" hp₀ hp₀m
  have hfresh := AddNode_fst_fresh_ids h.base "switch" ("Select Case " ++ trimStr g1) ln
  have hS : (stepSelect st ln g1).stack =
      Frame.selF (AddNode st "switch" ("Select Case " ++ trimStr g1) ln).1 ln [] false
        :: st.stack := by
    unfold stepSelect
    dsimp only
    rw [AddEdge_stack, AddNode_stack]
  refine InvC_of_chain st h (Inv0_stepSelect st ln g1 h.base) hN hndid ⟨"", hE⟩ rfl hS ?_
  have hmem : (AddNode st "switch" ("Select Case " ++ trimStr g1) ln).1
      ∈ idsOf (st.nodes ++ [nd]) := by
    rw [idsOf, List.map_append, List.mem_append]
    right
    simp [hndid]
  refine ⟨?_, ?_⟩
  · intro cond hasElse line ends ny nn ne hid hf
    rcases List.mem_cons.mp hf with hf | hf
    · exact absurd hf (by simp)
    · exact (StackOK.after_fresh h hfresh).if_ok _ _ _ _ _ _ _ _ hf
  · intro head line ends inCase hf
    rcases List.mem_cons.mp hf with hf | hf
    · obtain ⟨h1, h2, h3, h4⟩ := Frame.selF.inj hf
      subst h1 h3
      exact ⟨hmem, fun x hx => absurd hx (List.not_mem_nil x)⟩
    · exact (StackOK.after_fresh h hfresh).sel_ok _ _ _ _ hf

lemma InvC_stepLoop (st : BState) (ln : Nat) (h : InvC st) : InvC (stepLoop st ln) := by
  obtain ⟨p₀, hp₀, hp₀m⟩ := h.prev_mem
  unfold stepLoop
  rcases hpop : popUntilKind st.stack "Do" with ⟨top?, rest⟩
  have hrest : ∀ f ∈ rest, f ∈ st.stack := fun f hf =>
    popUntilKind_subset _ _ f (by rw [hpop]; exact hf)
  have hcatch : InvC { st with stack := rest } :=
    ⟨h.base, ⟨p₀, hp₀, hp₀m⟩, h.stack_ok.subset hrest, h.indeg⟩
  rcases top? with _ | fr
  · exact hcatch
  rcases fr with ⟨cond, hasElse, line, ends, ny, nn, ne, hid⟩ | ⟨head, hline, hid⟩ |
    ⟨loopId, fline, fc, hid⟩ | ⟨head, sline, ends, inCase⟩ | ⟨head, wline⟩
  · exact hcatch
  · dsimp only
    obtain ⟨nd, hN, hndid, hndty, hE, hU⟩ :=
      @chain_shape { st with stack := rest } hcatch.base "loopEnd" "Loop End" ln ""
        _ hp₀ hp₀m
    have hfresh := @AddNode_fst_fresh_ids { st with stack := rest } hcatch.base
      "loopEnd" "Loop End" ln
    refine InvC_of_chain { st with stack := rest } hcatch ?_ hN hndid ⟨"", hE⟩ rfl ?_
      (StackOK.after_fresh hcatch hfresh)
    · exact Inv0_AddEdge_plain (Inv0_AddNode hcatch.base _ _ _) _ _ (by tauto)
    · rw [AddEdge_stack, AddNode_stack]
  · exact hcatch
  · exact hcatch
  · exact hcatch

lemma InvC_stepNext (st : BState) (ln : Nat) (h : InvC st) : InvC (stepNext st ln) := by
  obtain ⟨p₀, hp₀, hp₀m⟩ := h.prev_mem
  unfold stepNext
  rcases hstk : st.stack with _ | ⟨fr, rest⟩
  · exact h
  have hrest : ∀ f ∈ rest, f ∈ st.stack := by
    intro f hf
    rw [hstk]
    exact List.mem_cons_of_mem _ hf
  have hcatch : InvC { st with stack := rest } :=
    ⟨h.base, ⟨p₀, hp₀, hp₀m⟩, h.stack_ok.subset hrest, h.indeg⟩
  rcases fr with ⟨cond, hasElse, line, ends, ny, nn, ne, hid⟩ | ⟨head, hline, hid⟩ |
    ⟨loopId, fline, fc, hid⟩ | ⟨head, sline, ends, inCase⟩ | ⟨head, wline⟩
  · exact h
  · exact h
  · dsimp only
    obtain ⟨nd, hN, hndid, hndty, hE, hU⟩ :=
      @chain_shape { st with stack := rest } hcatch.base "loopEnd" "For Next End" ln ""
        _ hp₀ hp₀m
    have hfresh := @AddNode_fst_fresh_ids { st with stack := rest } hcatch.base
      "loopEnd" "For Next End" ln
    refine InvC_of_chain { st with stack := rest } hcatch ?_ hN hndid ⟨"", hE⟩ rfl ?_
      (StackOK.after_fresh hcatch hfresh)
    · exact Inv0_AddEdge_plain (Inv0_AddNode hcatch.base _ _ _) _ _ (by tauto)
    · rw [AddEdge_stack, AddNode_stack]
  · exact h
  · exact h

lemma InvC_stepEndWith (st : BState) (ln : Nat) (h : InvC st) : InvC (stepEndWith st ln) := by
  obtain ⟨p₀, hp₀, hp₀m⟩ := h.prev_mem
  unfold stepEndWith
  dsimp only
  rcases hpop : popUntilKind st.stack "With" with ⟨top?, rest⟩
  have hrest : ∀ f ∈ rest, f ∈ st.stack := fun f hf =>
    popUntilKind_subset _ _ f (by rw [hpop]; exact hf)
  have hcatch : InvC { st with stack := rest } :=
    ⟨h.base, ⟨p₀, hp₀, hp₀m⟩, h.stack_ok.subset hrest, h.indeg⟩
  rcases top? with _ | fr
  · exact hcatch
  · dsimp only
    obtain ⟨nd, hN, hndid, hndty, hE, hU⟩ :=
      @chain_shape { st with stack := rest } hcatch.base "join" "End With" ln ""
        _ hp₀ hp₀m
    have hfresh := @AddNode_fst_fresh_ids { st with stack := rest } hcatch.base
      "join" "End With" ln
    refine InvC_of_chain { st with stack := rest } hcatch ?_ hN hndid ⟨"", hE⟩ rfl ?_
      (StackOK.after_fresh hcatch hfresh)
    · exact Inv0_AddEdge_plain (Inv0_AddNode hcatch.base _ _ _) _ _ (by tauto)
    · rw [AddEdge_stack, AddNode_stack]

/-- A join step: one fresh node, some batch of new edges at least one of
which enters it, cursor moved onto it, stack shrunk to old frames. -/
lemma InvC_of_join (st : BState) (h : InvC st) (jid : String) {st' : BState} {nd : Node}
    {newStack : List Frame}
    (hbase : Inv0 st')
    (hN : st'.nodes = st.nodes ++ [nd]) (hndid : nd.id = jid)
    (hE : ∃ extra, st'.edges = st.edges ++ extra ∧ 1 ≤ inDeg extra jid)
    (hP : st'.prevId = some jid)
    (hS : st'.stack = newStack)
    (hfresh : jid ∉ idsOf st.nodes)
    (hsub : ∀ f ∈ newStack, f ∈ st.stack) : InvC st' := by
  obtain ⟨extra, he, hd⟩ := hE
  refine ⟨hbase, ⟨jid, hP, ?_⟩, ?_, ?_⟩
  · rw [hN, idsOf, List.map_append, List.mem_append]
    right
    simp [hndid]
  · rw [hS, hP, hN]
    exact (StackOK.after_fresh h hfresh).subset hsub
  · rw [hN, he]
    refine IndegOK_append h.indeg _ _ ?_
    intro n hn
    rcases List.mem_singleton.mp hn with rfl
    right
    rw [hndid]
    exact hd

lemma InvC_stepElse (st : BState) (ln : Nat) (h : InvC st) : InvC (stepElse st ln) := by
  obtain ⟨p₀, hp₀, hp₀m⟩ := h.prev_mem
  unfold stepElse
  rcases hstk : st.stack with _ | ⟨fr, rest⟩
  · exact h
  rcases fr with ⟨cond, hasElse, line, ends, ny, nn, ne, hid⟩ | ⟨head, hline, hid⟩ |
    ⟨loopId, fline, fc, hid⟩ | ⟨head, sline, ends, inCase⟩ | ⟨head, wline⟩
  · obtain ⟨hcond, hends, himp⟩ := h.stack_ok.if_ok cond hasElse line ends ny nn ne hid
      (by rw [hstk]; exact List.mem_cons_self _ _)
    have hrest : ∀ f ∈ rest, f ∈ st.stack := by
      intro f hf
      rw [hstk]
      exact List.mem_cons_of_mem _ hf
    have hcondws : isNullOrWhiteSpace cond = false := h.base.ids_ws cond hcond
    have hends2 : ∀ x ∈ ends ++ [p₀], x ∈ idsOf st.nodes := by
      intro x hx
      rcases List.mem_append.mp hx with hx | hx
      · exact hends x hx
      · rw [List.mem_singleton.mp hx]
        exact hp₀m
    rw [hp₀]
    dsimp only
    by_cases hnn : nn = true
    · rw [if_pos hnn]
      obtain ⟨nd, hN, hndid, hndty, hE, hU⟩ :=
        @chain_shape_from st "op" "Else" ln "No" cond hcondws
      have hfresh := AddNode_fst_fresh_ids h.base "op" "Else" ln
      have hmem : (AddNode st "op" "Else" ln).1 ∈ idsOf (st.nodes ++ [nd]) := by
        rw [idsOf, List.map_append, List.mem_append]
        right
        simp [hndid]
      refine InvC_of_chain st h ?_ hN hndid ⟨"No", hE⟩ rfl
        (show _ = Frame.ifF cond true line (ends ++ [p₀]) ny false ne hid :: rest from rfl) ?_
      · exact Inv0_AddEdge_plain (Inv0_AddNode h.base _ _ _) _ _ (by tauto)
      · refine ⟨?_, ?_⟩
        · intro c2 he2 l2 e2 y2 n2 ne2 hid2 hf
          rcases List.mem_cons.mp hf with hf | hf
          · obtain ⟨q1, q2, q3, q4, q5, q6, q7, q8⟩ := Frame.ifF.inj hf
            subst q1 q4
            refine ⟨?_, ?_, ?_⟩
            · rw [idsOf, List.map_append, List.mem_append]
              exact Or.inl hcond
            · intro x hx
              rw [idsOf, List.map_append, List.mem_append]
              exact Or.inl (hends2 x hx)
            · intro hpc
              exact absurd (by rw [Option.some.inj hpc]; exact hcond) hfresh
          · exact ((StackOK.after_fresh h hfresh).subset hrest).if_ok _ _ _ _ _ _ _ _ hf
        · intro h2 l2 e2 i2 hf
          rcases List.mem_cons.mp hf with hf | hf
          · exact absurd hf (by simp)
          · exact ((StackOK.after_fresh h hfresh).subset hrest).sel_ok _ _ _ _ hf
    · rw [if_neg hnn]
      refine ⟨h.base, ⟨p₀, rfl, hp₀m⟩, ?_, h.indeg⟩
      refine ⟨?_, ?_⟩
      · intro c2 he2 l2 e2 y2 n2 ne2 hid2 hf
        rcases List.mem_cons.mp hf with hf | hf
        · obtain ⟨q1, q2, q3, q4, q5, q6, q7, q8⟩ := Frame.ifF.inj hf
          subst q1 q2 q4 q5 q6
          exact ⟨hcond, hends2, fun hpc => himp (hp₀.trans hpc)⟩
        · obtain ⟨a1, a2, a3⟩ := (h.stack_ok.subset hrest).if_ok _ _ _ _ _ _ _ _ hf
          exact ⟨a1, a2, fun hpc => a3 (hp₀.trans hpc)⟩
      · intro h2 l2 e2 i2 hf
        rcases List.mem_cons.mp hf with hf | hf
        · exact absurd hf (by simp)
        · exact (h.stack_ok.subset hrest).sel_ok _ _ _ _ hf
  · exact h
  · exact h
  · exact h
  · exact h

lemma InvC_stepEndIf (st : BState) (ln : Nat) (h : InvC st) : InvC (stepEndIf st ln) := by
  obtain ⟨p₀, hp₀, hp₀m⟩ := h.prev_mem
  unfold stepEndIf
  rcases hstk : st.stack with _ | ⟨fr, rest⟩
  · exact h
  rcases fr with ⟨cond, hasElse, line, ends, ny, nn, ne, hid⟩ | ⟨head, hline, hid⟩ |
    ⟨loopId, fline, fc, hid⟩ | ⟨head, sline, ends, inCase⟩ | ⟨head, wline⟩
  · obtain ⟨hcond, hends, himp⟩ := h.stack_ok.if_ok cond hasElse line ends ny nn ne hid
      (by rw [hstk]; exact List.mem_cons_self _ _)
    have hrest : ∀ f ∈ rest, f ∈ st.stack := by
      intro f hf
      rw [hstk]
      exact List.mem_cons_of_mem _ hf
    have hends2 : ∀ x ∈ ends ++ [p₀], x ∈ idsOf st.nodes := by
      intro x hx
      rcases List.mem_append.mp hx with hx | hx
      · exact hends x hx
      · rw [List.mem_singleton.mp hx]
        exact hp₀m
    have hcatch : InvC { st with prevId := some p₀, stack := rest } :=
      ⟨h.base, ⟨p₀, rfl, hp₀m⟩, hp₀ ▸ (h.stack_ok.subset hrest), h.indeg⟩
    have hws : ∀ x ∈ ends ++ [p₀], isNullOrWhiteSpace x = false :=
      fun x hx => h.base.ids_ws x (hends2 x hx)
    have hcondws : isNullOrWhiteSpace cond = false := h.base.ids_ws cond hcond
    have hfresh : (AddNode { st with prevId := some p₀, stack := rest } "join" "End If" ln).1 ∉ idsOf st.nodes :=
      @AddNode_fst_fresh_ids { st with prevId := some p₀, stack := rest } hcatch.base "join" "End If" ln
    have hjws := AddNode_fst_not_ws { st with prevId := some p₀, stack := rest } "join" "End If" ln
    obtain ⟨nd, hndN, hndid, hndty⟩ :=
      AddNode_shape { st with prevId := some p₀, stack := rest } "join" "End If" ln
    dsimp only
    simp only [AddNode_prevId, hp₀]
    obtain ⟨hfE, hfN, hfU, hfP, hfS⟩ := foldl_AddEdge_shape
      (AddNode { st with prevId := some p₀, stack := rest } "join" "End If" ln).1 hjws (ends ++ [p₀])
      ⟨(AddNode { st with prevId := some p₀, stack := rest } "join" "End If" ln).2.usedIds, (AddNode { st with prevId := some p₀, stack := rest } "join" "End If" ln).2.nodes, (AddNode { st with prevId := some p₀, stack := rest } "join" "End If" ln).2.edges, (AddNode { st with prevId := some p₀, stack := rest } "join" "End If" ln).2.calls,
        (AddNode { st with prevId := some p₀, stack := rest } "join" "End If" ln).2.loopSpans, (AddNode { st with prevId := some p₀, stack := rest } "join" "End If" ln).2.labels, (AddNode { st with prevId := some p₀, stack := rest } "join" "End If" ln).2.labelNodeMap,
        some p₀, (AddNode { st with prevId := some p₀, stack := rest } "join" "End If" ln).2.stack, (AddNode { st with prevId := some p₀, stack := rest } "join" "End If" ln).2.loopH, (AddNode { st with prevId := some p₀, stack := rest } "join" "End If" ln).2.ifH.endIf⟩ hws
    by_cases hcn : (!hasElse && nn) = true
    · rw [if_pos hcn]
      refine InvC_of_join st h (AddNode { st with prevId := some p₀, stack := rest } "join" "End If" ln).1
        ?_ ((AddEdge_nodes _ _ _ _).trans (hfN.trans hndN)) hndid ?_ rfl ?_ hfresh hrest
      · exact Inv0_AddEdge_plain (Inv0_foldl_AddEdge _ _ _ (by
          exact Inv0_AddNode hcatch.base _ _ _)) _ _ (by tauto)
      · refine ⟨_, (AddEdge_edges_some "No" hcondws hjws).trans
          (by rw [hfE]; exact List.append_assoc _ _ _), ?_⟩
        rw [inDeg_append, inDeg_map_ends, List.length_append, List.length_singleton]
        omega
      · exact (AddEdge_stack _ _ _ _).trans (hfS.trans (rfl : _ = rest))
    · rw [if_neg hcn]
      refine InvC_of_join st h (AddNode { st with prevId := some p₀, stack := rest } "join" "End If" ln).1
        ?_ (hfN.trans hndN) hndid ?_ rfl ?_ hfresh hrest
      · exact Inv0_foldl_AddEdge _ _ _ (by exact Inv0_AddNode hcatch.base _ _ _)
      · refine ⟨_, hfE.trans rfl, ?_⟩
        rw [inDeg_map_ends, List.length_append, List.length_singleton]
        omega
      · exact hfS.trans (rfl : _ = rest)
  · exact h
  · exact h
  · exact h
  · exact h

lemma InvC_stepGoto (cfg : Config) (st : BState) (ln : Nat) (s lbl : String) (h : InvC st) :
    InvC (stepGoto cfg st ln s lbl) := by
  obtain ⟨p₀, hp₀, hp₀m⟩ := h.prev_mem
  obtain ⟨nd, hN, hndid, hndty, hE, hU⟩ := chain_shape h.base "goto" s ln "" hp₀ hp₀m
  have hfresh := AddNode_fst_fresh_ids h.base "goto" s ln
  have h2 : Inv0 (AddEdge (AddNode st "goto" s ln).2 (AddNode st "goto" s ln).2.prevId
      (some (AddNode st "goto" s ln).1) "") :=
    Inv0_AddEdge_plain (Inv0_AddNode h.base _ _ _) _ _ (by tauto)
  have hmem : ∃ n ∈ (AddEdge (AddNode st "goto" s ln).2 (AddNode st "goto" s ln).2.prevId
      (some (AddNode st "goto" s ln).1) "").nodes,
      n.id = (AddNode st "goto" s ln).1 ∧ n.type = "goto" := by
    rw [AddEdge_nodes, AddNode_nodes]
    exact ⟨_, List.mem_append_right _ (List.mem_singleton.mpr rfl), rfl, rfl⟩
  have hfinish : ∀ st3 : BState,
      Inv0 st3 →
      st3.nodes = st.nodes ++ [nd] →
      (∃ ex, st3.edges = (st.edges ++ [⟨p₀, (AddNode st "goto" s ln).1, ""⟩]) ++ ex) →
      st3.stack = st.stack →
      InvC { st3 with prevId := some (AddNode st "goto" s ln).1 } := by
    intro st3 h3 h3N h3E h3S
    obtain ⟨ex, h3E⟩ := h3E
    refine ⟨h3, ⟨(AddNode st "goto" s ln).1, rfl, ?_⟩, ?_, ?_⟩
    · show (AddNode st "goto" s ln).1 ∈ idsOf st3.nodes
      rw [h3N, idsOf, List.map_append, List.mem_append]
      right
      simp [hndid]
    · show StackOK st3.nodes (some (AddNode st "goto" s ln).1) st3.stack
      rw [h3N, h3S]
      exact StackOK.after_fresh h hfresh
    · show IndegOK st3.nodes st3.edges
      rw [h3N, h3E]
      refine IndegOK_mono (IndegOK_append h.indeg _ _ ?_) ex
      intro n hn
      right
      rcases List.mem_singleton.mp hn with rfl
      rw [hndid]
      exact le_of_eq (inDeg_single _ _ _).symm
  unfold stepGoto
  dsimp only
  simp only [AddEdge_labelNodeMap, AddEdge_labels, AddNode_labelNodeMap, AddNode_labels]
  rcases hm1 : getKey st.labelNodeMap (toLowerStr lbl) with _ | nid
  · simp only [hm1]
    rcases hm2 : getKey st.labels (toLowerStr lbl) with _ | li
    · simp only [hm2]
      exact hfinish _ h2 hN ⟨[], by rw [hE]; simp⟩ (by rw [AddEdge_stack, AddNode_stack])
    · simp only [hm2]
      refine hfinish _ (Inv0_AddEdge_goto h2 _ hmem) ?_ ?_ ?_
      · rw [AddEdge_nodes]
        exact hN
      · obtain ⟨ex, hex⟩ := AddEdge_edges_extends
          (AddEdge (AddNode st "goto" s ln).2 (AddNode st "goto" s ln).2.prevId
            (some (AddNode st "goto" s ln).1) "")
          (some (AddNode st "goto" s ln).1)
          (some ("n" ++ natRepr (cfg.StartLineOffset + li))) "goto"
        exact ⟨ex, by rw [hex, hE]⟩
      · rw [AddEdge_stack, AddEdge_stack, AddNode_stack]
  · simp only [hm1]
    refine hfinish _ (Inv0_AddEdge_goto h2 _ hmem) ?_ ?_ ?_
    · rw [AddEdge_nodes]
      exact hN
    · obtain ⟨ex, hex⟩ := AddEdge_edges_extends
        (AddEdge (AddNode st "goto" s ln).2 (AddNode st "goto" s ln).2.prevId
          (some (AddNode st "goto" s ln).1) "")
        (some (AddNode st "goto" s ln).1) (some nid) "goto"
      exact ⟨ex, by rw [hex, hE]⟩
    · rw [AddEdge_stack, AddEdge_stack, AddNode_stack]

lemma InvC_stepWith (st : BState) (ln : Nat) (g1 : String) (h : InvC st) :
    InvC (stepWith st ln g1) := by
  obtain ⟨p₀, hp₀, hp₀m⟩ := h.prev_mem
  obtain ⟨nd, hN, hndid, hndty, hE, hU⟩ :=
    chain_shape h.base "block" ("With " ++ trimStr g1) ln "" hp₀ hp₀m
  have hfresh := AddNode_fst_fresh_ids h.base "block" ("With " ++ trimStr g1) ln
  have hS : (stepWith st ln g1).stack =
      Frame.withF (AddNode st "block" ("With " ++ trimStr g1) ln).1 ln :: st.stack := by
    unfold stepWith
    dsimp only
    rw [AddEdge_stack, AddNode_stack]
  refine InvC_of_chain st h (Inv0_stepWith st ln g1 h.base) hN hndid ⟨"", hE⟩ rfl hS ?_
  refine ⟨?_, ?_⟩
  · intro cond hasElse line ends ny nn ne hid hf
    rcases List.mem_cons.mp hf with hf | hf
    · exact absurd hf (by simp)
    · exact (StackOK.after_fresh h hfresh).if_ok _ _ _ _ _ _ _ _ hf
  · intro head line ends inCase hf
    rcases List.mem_cons.mp hf with hf | hf
    · exact absurd hf (by simp)
    · exact (StackOK.after_fresh h hfresh).sel_ok _ _ _ _ hf

lemma InvC_stepCaseCommon (st : BState) (ln : Nat) (tx : String) (h : InvC st) :
    InvC (stepCaseCommon st ln tx) := by
  obtain ⟨p₀, hp₀, hp₀m⟩ := h.prev_mem
  unfold stepCaseCommon
  rcases hpk : peekNearestSelectIdx st.stack with _ | k
  · exact h
  dsimp only
  rcases hget : st.stack.get? k with _ | fr
  · exact h
  rcases fr with ⟨cond, hasElse, line, ends, ny, nn, ne, hid⟩ | ⟨head, hline, hid⟩ |
    ⟨loopId, fline, fc, hid⟩ | ⟨head, sline, ends, inCase⟩ | ⟨head, wline⟩
  · exact h
  · exact h
  · exact h
  · have hmemstk : Frame.selF head sline ends inCase ∈ st.stack := List.get?_mem hget
    obtain ⟨hhead, hends⟩ := h.stack_ok.sel_ok head sline ends inCase hmemstk
    have hheadws : isNullOrWhiteSpace head = false := h.base.ids_ws head hhead
    dsimp only
    rw [hp₀]
    dsimp only
    generalize hgen : (if inCase && p₀ ≠ head then ends ++ [p₀] else ends) = ends2
    have hends3 : ∀ x ∈ ends2, x ∈ idsOf st.nodes := by
      rw [← hgen]
      intro x hx
      split at hx
      · rcases List.mem_append.mp hx with hx | hx
        · exact hends x hx
        · rw [List.mem_singleton.mp hx]
          exact hp₀m
      · exact hends x hx
    obtain ⟨nd, hN, hndid, hndty, hE, hU⟩ := @chain_shape_from st "case" tx ln "" head hheadws
    have hfresh := AddNode_fst_fresh_ids h.base "case" tx ln
    have hsup : ∀ x ∈ idsOf st.nodes, x ∈ idsOf (st.nodes ++ [nd]) := by
      intro x hx
      rw [idsOf, List.map_append, List.mem_append]
      exact Or.inl hx
    have hafter : StackOK (st.nodes ++ [nd]) (some (AddNode st "case" tx ln).1) st.stack :=
      StackOK.after_fresh h hfresh
    refine InvC_of_chain st h ?_ hN hndid ⟨"", hE⟩ rfl
      (show _ = Frame.selF head sline ends2 true ::
        (st.stack.set k (Frame.selF head sline ends2 true)).tail by
        rw [AddEdge_stack, AddNode_stack]) ?_
    · exact Inv0_AddEdge_plain (Inv0_AddNode h.base _ _ _) _ _ (by tauto)
    · refine ⟨?_, ?_⟩
      · intro c2 he2 l2 e2 y2 n2 ne2 hid2 hf
        rcases List.mem_cons.mp hf with hf | hf
        · exact absurd hf (by simp)
        · rcases List.mem_or_eq_of_mem_set (List.mem_of_mem_tail hf) with hf2 | hf2
          · exact hafter.if_ok _ _ _ _ _ _ _ _ hf2
          · exact absurd hf2 (by simp)
      · intro h2 l2 e2 i2 hf
        rcases List.mem_cons.mp hf with hf | hf
        · obtain ⟨q1, q2, q3, q4⟩ := Frame.selF.inj hf
          subst q1 q3
          exact ⟨hsup _ hhead, fun x hx => hsup x (hends3 x hx)⟩
        · rcases List.mem_or_eq_of_mem_set (List.mem_of_mem_tail hf) with hf2 | hf2
          · exact hafter.sel_ok _ _ _ _ hf2
          · obtain ⟨q1, q2, q3, q4⟩ := Frame.selF.inj hf2
            subst q1 q3
            exact ⟨hsup _ hhead, fun x hx => hsup x (hends3 x hx)⟩
  · exact h

lemma InvC_stepEndSelect (st : BState) (ln : Nat) (h : InvC st) :
    InvC (stepEndSelect st ln) := by
  obtain ⟨p₀, hp₀, hp₀m⟩ := h.prev_mem
  unfold stepEndSelect
  dsimp only
  rcases hpop : popUntilKind st.stack "Select" with ⟨sel?, rest⟩
  have hrest : ∀ f ∈ rest, f ∈ st.stack := fun f hf =>
    popUntilKind_subset _ _ f (by rw [hpop]; exact hf)
  have hcatch : InvC { st with stack := rest } :=
    ⟨h.base, ⟨p₀, hp₀, hp₀m⟩, h.stack_ok.subset hrest, h.indeg⟩
  have hfall : InvC { AddEdge (AddNode { st with stack := rest } "join" "End Select" ln).2
      (AddNode { st with stack := rest } "join" "End Select" ln).2.prevId
      (some (AddNode { st with stack := rest } "join" "End Select" ln).1) "" with
      prevId := some (AddNode { st with stack := rest } "join" "End Select" ln).1 } := by
    obtain ⟨nd, hN, hndid, hndty, hE, hU⟩ :=
      @chain_shape { st with stack := rest } hcatch.base "join" "End Select" ln "" _ hp₀ hp₀m
    have hfresh := @AddNode_fst_fresh_ids { st with stack := rest } hcatch.base
      "join" "End Select" ln
    refine InvC_of_chain { st with stack := rest } hcatch ?_ hN hndid ⟨"", hE⟩ rfl ?_
      (StackOK.after_fresh hcatch hfresh)
    · exact Inv0_AddEdge_plain (Inv0_AddNode hcatch.base _ _ _) _ _ (by tauto)
    · rw [AddEdge_stack, AddNode_stack]
  rcases sel? with _ | fr
  · exact hfall
  rcases fr with ⟨cond, hasElse, line, ends, ny, nn, ne, hid⟩ | ⟨head, hline, hid⟩ |
    ⟨loopId, fline, fc, hid⟩ | ⟨head, sline, ends, inCase⟩ | ⟨head, wline⟩
  · exact hfall
  · exact hfall
  · exact hfall
  · have hmemstk : Frame.selF head sline ends inCase ∈ st.stack :=
      popUntilKind_found_mem _ _ _ (by rw [hpop])
    obtain ⟨hhead, hends⟩ := h.stack_ok.sel_ok head sline ends inCase hmemstk
    have hheadws : isNullOrWhiteSpace head = false := h.base.ids_ws head hhead
    dsimp only
    simp only [AddNode_prevId, hp₀]
    generalize hgen : (if inCase && p₀ ≠ head then ends ++ [p₀] else ends) = ends2
    have hends3 : ∀ x ∈ ends2, x ∈ idsOf st.nodes := by
      rw [← hgen]
      intro x hx
      split at hx
      · rcases List.mem_append.mp hx with hx | hx
        · exact hends x hx
        · rw [List.mem_singleton.mp hx]
          exact hp₀m
      · exact hends x hx
    have hws2 : ∀ x ∈ ends2, isNullOrWhiteSpace x = false :=
      fun x hx => h.base.ids_ws x (hends3 x hx)
    have hcatch2 : InvC { st with prevId := some p₀, stack := rest } :=
      ⟨h.base, ⟨p₀, rfl, hp₀m⟩, hp₀ ▸ (h.stack_ok.subset hrest), h.indeg⟩
    have hfresh : (AddNode { st with prevId := some p₀, stack := rest }
        "join" "End Select" ln).1 ∉ idsOf st.nodes :=
      @AddNode_fst_fresh_ids { st with prevId := some p₀, stack := rest } hcatch2.base
        "join" "End Select" ln
    have hjws := AddNode_fst_not_ws { st with prevId := some p₀, stack := rest }
      "join" "End Select" ln
    obtain ⟨nd, hndN, hndid, hndty⟩ :=
      AddNode_shape { st with prevId := some p₀, stack := rest } "join" "End Select" ln
    obtain ⟨hfE, hfN, hfU, hfP, hfS⟩ := foldl_AddEdge_shape
      (AddNode { st with prevId := some p₀, stack := rest } "join" "End Select" ln).1 hjws ends2
      (AddNode { st with prevId := some p₀, stack := rest } "join" "End Select" ln).2 hws2
    by_cases hemp : ends2.isEmpty = true
    · rw [if_pos hemp]
      refine InvC_of_join st h
        (AddNode { st with prevId := some p₀, stack := rest } "join" "End Select" ln).1
        ?_ ((AddEdge_nodes _ _ _ _).trans (hfN.trans hndN)) hndid ?_ rfl ?_ hfresh hrest
      · exact Inv0_AddEdge_plain (Inv0_foldl_AddEdge _ _ _ (by
          exact Inv0_AddNode hcatch2.base _ _ _)) _ _ (by tauto)
      · refine ⟨_, (AddEdge_edges_some "" hheadws hjws).trans
          (by rw [hfE]; exact List.append_assoc _ _ _), ?_⟩
        rw [inDeg_append]
        have h1 := inDeg_single head
          (AddNode { st with prevId := some p₀, stack := rest } "join" "End Select" ln).1 ""
        omega
      · exact (AddEdge_stack _ _ _ _).trans (hfS.trans (rfl : _ = rest))
    · rw [if_neg hemp]
      refine InvC_of_join st h
        (AddNode { st with prevId := some p₀, stack := rest } "join" "End Select" ln).1
        ?_ (hfN.trans hndN) hndid ?_ rfl ?_ hfresh hrest
      · exact Inv0_foldl_AddEdge _ _ _ (by exact Inv0_AddNode hcatch2.base _ _ _)
      · refine ⟨_, hfE.trans rfl, ?_⟩
        rw [inDeg_map_ends]
        have h2 : ends2 ≠ [] := fun hnil => hemp (by rw [hnil]; rfl)
        have h3 : 0 < ends2.length := List.length_pos.mpr h2
        omega
      · exact hfS.trans (rfl : _ = rest)
  · exact hfall

/-- `connectFromContext` after a fresh node, with the cursor then moved
onto the new node, preserves the conditional invariant. -/
lemma InvC_connectChain (st : BState) (ty tx : String) (ln : Nat) (h : InvC st) :
    InvC { connectFromContext (AddNode st ty tx ln).2 (AddNode st ty tx ln).1 with
           prevId := some (AddNode st ty tx ln).1 } := by
  obtain ⟨p₀, hp₀, hp₀m⟩ := h.prev_mem
  obtain ⟨nd, hN, hndid, hndty, hE, hU⟩ := chain_shape h.base ty tx ln "" hp₀ hp₀m
  have hfresh := AddNode_fst_fresh_ids h.base ty tx ln
  have hsup : ∀ x ∈ idsOf st.nodes, x ∈ idsOf (st.nodes ++ [nd]) := by
    intro x hx
    rw [idsOf, List.map_append, List.mem_append]
    exact Or.inl hx
  unfold connectFromContext
  rw [AddNode_stack]
  rcases hstk : st.stack with _ | ⟨fr, rest⟩
  · dsimp only
    refine InvC_of_chain st h ?_ hN hndid ⟨"", hE⟩ rfl ?_ (StackOK.after_fresh h hfresh)
    · exact Inv0_AddEdge_plain (Inv0_AddNode h.base _ _ _) _ _ (by tauto)
    · rw [AddEdge_stack, AddNode_stack]
  rcases fr with ⟨cond, hasElse, line, ends, ny, nn, ne, hid⟩ | ⟨head, hline, hid⟩ |
    ⟨loopId, fline, fc, hid⟩ | ⟨head, sline, ends, inCase⟩ | ⟨head, wline⟩
  · obtain ⟨hcond, hends, himp⟩ := h.stack_ok.if_ok cond hasElse line ends ny nn ne hid
      (by rw [hstk]; exact List.mem_cons_self _ _)
    have hrest : ∀ f ∈ rest, f ∈ st.stack := by
      intro f hf
      rw [hstk]
      exact List.mem_cons_of_mem _ hf
    have hsubc : ∀ f ∈ Frame.ifF cond hasElse line ends ny nn ne hid :: rest,
        f ∈ st.stack := by
      intro f hf
      rw [hstk]
      exact hf
    have hcondws : isNullOrWhiteSpace cond = false := h.base.ids_ws cond hcond
    dsimp only
    by_cases hyn : (ny && !hasElse) = true
    · rw [if_pos hyn]
      obtain ⟨nd2, hN2, hnd2id, hnd2ty, hE2, hU2⟩ :=
        @chain_shape_from st ty tx ln "Yes" cond hcondws
      have hsup2 : ∀ x ∈ idsOf st.nodes, x ∈ idsOf (st.nodes ++ [nd2]) := by
        intro x hx
        rw [idsOf, List.map_append, List.mem_append]
        exact Or.inl hx
      refine InvC_of_chain st h ?_ hN2 hnd2id ⟨"Yes", hE2⟩ rfl
        (show _ = Frame.ifF cond hasElse line ends false nn ne hid :: rest from rfl) ?_
      · exact Inv0_AddEdge_plain (Inv0_AddNode h.base _ _ _) _ _ (by tauto)
      · refine ⟨?_, ?_⟩
        · intro c2 he2 l2 e2 y2 n2 ne2 hid2 hf
          rcases List.mem_cons.mp hf with hf | hf
          · obtain ⟨q1, q2, q3, q4, q5, q6, q7, q8⟩ := Frame.ifF.inj hf
            subst q1 q4
            refine ⟨hsup2 _ hcond, fun x hx => hsup2 x (hends x hx), ?_⟩
            intro hpc
            exact absurd (by rw [Option.some.inj hpc]; exact hcond) hfresh
          · exact ((StackOK.after_fresh h hfresh).subset hrest).if_ok _ _ _ _ _ _ _ _ hf
        · intro h2 l2 e2 i2 hf
          rcases List.mem_cons.mp hf with hf | hf
          · exact absurd hf (by simp)
          · exact ((StackOK.after_fresh h hfresh).subset hrest).sel_ok _ _ _ _ hf
    · rw [if_neg hyn]
      simp only [AddNode_prevId, hp₀]
      by_cases hpc : p₀ = cond
      · obtain ⟨hny, hhe⟩ := himp (hp₀.trans (by rw [hpc]))
        exact absurd (by rw [hny, hhe]; rfl) hyn
      · rw [if_pos hpc]
        have hp₀ws : isNullOrWhiteSpace p₀ = false := h.base.ids_ws p₀ hp₀m
        obtain ⟨nd3, hN3, hnd3id, hnd3ty, hE3, hU3⟩ :=
          @chain_shape_from st ty tx ln "" p₀ hp₀ws
        refine InvC_of_chain st h ?_ hN3 hnd3id ⟨"", hE3⟩ rfl ?_
          ((StackOK.after_fresh h hfresh).subset hsubc)
        · exact Inv0_AddEdge_plain (Inv0_AddNode h.base _ _ _) _ _ (by tauto)
        · rw [AddEdge_stack, AddNode_stack, hstk]
  · dsimp only
    refine InvC_of_chain st h ?_ hN hndid ⟨"", hE⟩ rfl ?_ (StackOK.after_fresh h hfresh)
    · exact Inv0_AddEdge_plain (Inv0_AddNode h.base _ _ _) _ _ (by tauto)
    · rw [AddEdge_stack, AddNode_stack]
  · dsimp only
    refine InvC_of_chain st h ?_ hN hndid ⟨"", hE⟩ rfl ?_ (StackOK.after_fresh h hfresh)
    · exact Inv0_AddEdge_plain (Inv0_AddNode h.base _ _ _) _ _ (by tauto)
    · rw [AddEdge_stack, AddNode_stack]
  · dsimp only
    refine InvC_of_chain st h ?_ hN hndid ⟨"", hE⟩ rfl ?_ (StackOK.after_fresh h hfresh)
    · exact Inv0_AddEdge_plain (Inv0_AddNode h.base _ _ _) _ _ (by tauto)
    · rw [AddEdge_stack, AddNode_stack]
  · dsimp only
    refine InvC_of_chain st h ?_ hN hndid ⟨"", hE⟩ rfl ?_ (StackOK.after_fresh h hfresh)
    · exact Inv0_AddEdge_plain (Inv0_AddNode h.base _ _ _) _ _ (by tauto)
    · rw [AddEdge_stack, AddNode_stack]

lemma InvC_stepOp (st : BState) (ln : Nat) (s : String) (h : InvC st) :
    InvC (stepOp st ln s) := InvC_connectChain st "op" s ln h

lemma InvC_callsFold (cfg : Config) (ln : Nat) :
    ∀ (hits : List Hit) (st : BState), InvC st →
      InvC (hits.foldl
        (fun s h2 =>
          let tr := resolveCall cfg.SymbolTable cfg.ThisModule h2
          { s with calls := s.calls ++ [⟨tr.1, tr.2, ln⟩] })
        st) := by
  intro hits
  induction hits with
  | nil =>
    intro st h
    exact h
  | cons a as ih =>
    intro st h
    exact ih _ h

lemma InvC_stepCalls (cfg : Config) (st : BState) (ln : Nat) (s : String) (hits : List Hit)
    (h : InvC st) : InvC (stepCalls cfg st ln s hits) :=
  InvC_connectChain _ "call" s ln (InvC_callsFold cfg ln hits st h)

lemma InvC_ptCalls (cfg : Config) (st : BState) (ln : Nat) (s : String) (h : InvC st) :
    InvC (ptCalls cfg st ln s) := by
  unfold ptCalls
  split
  · exact InvC_stepOp _ _ _ h
  · exact InvC_stepCalls _ _ _ _ _ h

lemma InvC_ptTerm (cfg : Config) (st : BState) (ln : Nat) (s : String)
    (hex : isExitLine s.data = false) (herr : isErrRaiseLine s.data = false)
    (h : InvC st) : InvC (ptTerm cfg st ln s) := by
  unfold ptTerm
  split
  next hc => exact absurd hc (by rw [hex]; decide)
  next hc =>
    split
    next hc2 => exact absurd hc2 (by rw [herr]; decide)
    next hc2 => exact InvC_ptCalls _ _ _ _ h

lemma InvC_ptGotoLabel (cfg : Config) (st : BState) (i ln : Nat) (s : String)
    (hlab : matchLabelLine s.data = none)
    (hex : isExitLine s.data = false) (herr : isErrRaiseLine s.data = false)
    (h : InvC st) : InvC (ptGotoLabel cfg st i ln s) := by
  unfold ptGotoLabel
  rw [hlab]
  split
  · exact InvC_stepGoto _ _ _ _ _ h
  · exact InvC_ptTerm _ _ _ _ hex herr h

lemma InvC_ptWith (cfg : Config) (st : BState) (i ln : Nat) (s : String)
    (hlab : matchLabelLine s.data = none)
    (hex : isExitLine s.data = false) (herr : isErrRaiseLine s.data = false)
    (h : InvC st) : InvC (ptWith cfg st i ln s) := by
  unfold ptWith
  split
  · exact InvC_stepWith _ _ _ h
  split
  · exact InvC_stepEndWith _ _ h
  · exact InvC_ptGotoLabel _ _ _ _ _ hlab hex herr h

lemma InvC_ptSelect (cfg : Config) (st : BState) (i ln : Nat) (s : String)
    (hlab : matchLabelLine s.data = none)
    (hex : isExitLine s.data = false) (herr : isErrRaiseLine s.data = false)
    (h : InvC st) : InvC (ptSelect cfg st i ln s) := by
  unfold ptSelect
  split
  · exact InvC_stepSelect _ _ _ h
  split
  · exact InvC_stepCaseCommon _ _ _ h
  split
  · exact InvC_stepCaseCommon _ _ _ h
  split
  · exact InvC_stepEndSelect _ _ h
  · exact InvC_ptWith _ _ _ _ _ hlab hex herr h

lemma InvC_ptLoops (cfg : Config) (st : BState) (i ln : Nat) (s : String)
    (hlab : matchLabelLine s.data = none)
    (hex : isExitLine s.data = false) (herr : isErrRaiseLine s.data = false)
    (h : InvC st) : InvC (ptLoops cfg st i ln s) := by
  unfold ptLoops
  split
  · exact InvC_stepDo _ _ _ h
  split
  · exact InvC_stepLoop _ _ h
  split
  · exact InvC_stepFor _ _ _ h
  split
  · exact InvC_stepNext _ _ h
  · exact InvC_ptSelect _ _ _ _ _ hlab hex herr h

lemma InvC_ptIf (cfg : Config) (st : BState) (i ln : Nat) (s : String)
    (hlab : matchLabelLine s.data = none)
    (hex : isExitLine s.data = false) (herr : isErrRaiseLine s.data = false)
    (helif : matchElseIf s.data = none)
    (h : InvC st) : InvC (ptIf cfg st i ln s) := by
  unfold ptIf
  rw [helif]
  split
  · exact InvC_stepOneLineIf _ _ _ _ h
  split
  · exact InvC_stepBlockIf _ _ _ h
  dsimp only
  split
  · exact InvC_stepElse _ _ h
  split
  · exact InvC_stepEndIf _ _ h
  · exact InvC_ptLoops _ _ _ _ _ hlab hex herr h

lemma InvC_processTrim (cfg : Config) (st : BState) (i ln : Nat) (s : String)
    (hex : isExitLine s.data = false) (herr : isErrRaiseLine s.data = false)
    (helif : matchElseIf s.data = none)
    (h : InvC st) : InvC (processTrim cfg st i ln s) := by
  unfold processTrim
  split
  next hc => exact h
  next hc =>
    split
    next hc2 => exact h
    next hc2 =>
      have hlab : matchLabelLine s.data = none := by
        rcases hm : matchLabelLine s.data with _ | v
        · rfl
        · exact absurd (by rw [hm]; rfl) hc2
      exact InvC_ptIf _ _ _ _ _ hlab hex herr helif h

lemma InvC_processLine (cfg : Config) (st : BState) (i : Nat) (l : String)
    (hb : benign l) (h : InvC st) : InvC (processLine cfg st i l) :=
  InvC_processTrim cfg st i _ _ hb.1 hb.2.1 hb.2.2 h

lemma InvC_processLines (cfg : Config) :
    ∀ (ls : List String) (st : BState) (i : Nat), (∀ l ∈ ls, benign l) → InvC st →
      InvC (processLines cfg st i ls) := by
  intro ls
  induction ls with
  | nil =>
    intro st i _ h
    exact h
  | cons l ls ih =>
    intro st i hb h
    exact ih _ _ (fun x hx => hb x (List.mem_cons_of_mem _ hx))
      (InvC_processLine cfg st i l (hb l (List.mem_cons_self _ _)) h)

/-- The state after the `start` node, before the line walk. -/
lemma InvC_startState (labels0 : List (String × Nat)) (off : Nat) :
    InvC { (AddNode (initState labels0) "start" "Start" off).2 with
           prevId := some (AddNode (initState labels0) "start" "Start" off).1 } := by
  refine ⟨Inv0_AddNode (Inv0_init _) _ _ _,
    ⟨(AddNode (initState labels0) "start" "Start" off).1, rfl, ?_⟩, ⟨?_, ?_⟩, ?_⟩
  · exact List.mem_singleton.mpr rfl
  · intro cond hasElse line ends ny nn ne hid hf
    exact absurd hf (List.not_mem_nil _)
  · intro head line ends inCase hf
    exact absurd hf (List.not_mem_nil _)
  · intro n hn
    rcases List.mem_singleton.mp hn with rfl
    left
    rfl

/-- Under per-line benignity, every node of the final builder state
except the `start` node has at least one incoming edge. -/
lemma IndegOK_finalState (body : List String) (off : Nat) (m : String)
    (tbl : List (String × List String)) (hb : ∀ l ∈ body, benign l) :
    IndegOK (finalState body off m tbl).nodes (finalState body off m tbl).edges := by
  unfold finalState
  dsimp only
  have h5 : InvC (processLines ⟨off, m, tbl⟩
      { (AddNode (initState (prePassLabels 0 body [])) "start" "Start" off).2 with
        prevId := some (AddNode (initState (prePassLabels 0 body [])) "start" "Start" off).1 }
      0 body) :=
    InvC_processLines _ body _ 0 hb (InvC_startState _ off)
  obtain ⟨p₀, hp₀, hp₀m⟩ := h5.prev_mem
  obtain ⟨nd, hN, hndid, hndty, hE, hU⟩ := chain_shape h5.base "end" "End"
    (off + body.length) "" hp₀ hp₀m
  rw [hN, hE]
  refine IndegOK_append h5.indeg _ _ ?_
  intro n hn
  rcases List.mem_singleton.mp hn with rfl
  right
  rw [hndid]
  exact le_of_eq (inDeg_single _ _ _).symm

/-! ## Helpers for the claim theorems -/

instance (l : String) : Decidable (benign l) := by
  unfold benign
  exact inferInstance

lemma buildSymbolGo_no_dirErr : ∀ (fs : List FileEntry) (table : List (String × List String)),
    buildSymbolGo fs table ≠ Except.error ScriptError.folderNotFound := by
  intro fs
  induction fs with
  | nil =>
    intro table h
    exact absurd h (by simp [buildSymbolGo])
  | cons f fs ih =>
    intro table h
    unfold buildSymbolGo at h
    rcases hc : f.content with _ | ls
    · rw [show ReadFileLines f = Except.error (ScriptError.fileNotFound f.name) by
        unfold ReadFileLines; rw [hc]] at h
      exact absurd h (by simp)
    · rw [show ReadFileLines f = Except.ok ls by unfold ReadFileLines; rw [hc]] at h
      exact ih _ h

lemma callEdges_foldl (fr : String) : ∀ (cs : List CallRec) (acc : List String × List GEdge),
    (cs.foldl (fun acc2 c => (hashSetAdd (hashSetAdd acc2.1 fr) c.target,
      acc2.2 ++ [⟨fr, c.target, c.resolved⟩])) acc).2
      = acc.2 ++ cs.map (fun c => (⟨fr, c.target, c.resolved⟩ : GEdge)) := by
  intro cs
  induction cs with
  | nil =>
    intro acc
    simp
  | cons c cs ih =>
    intro acc
    rw [List.foldl_cons, ih]
    simp

/-! ## Claim theorems -/

/-- C1: for Scenario A the Builder does NOT emit the claimed six-node
shape: an extra `op` node with text `Else` appears between the two
branch operations, so the claimed node list (and with it the claimed
edge set) is wrong. -/
theorem C1_scenarioA_deviates :
    ((AnalyzeProcedure ["If x > 0 Then", "y = 1", "Else", "y = 2", "End If"] 10 "M" []).nodes.map
        (fun n => (n.type, n.text)) ≠
      [("start", "Start"), ("cond", "If x > 0?"), ("op", "y = 1"), ("op", "y = 2"),
        ("join", "End If"), ("end", "End")]) ∧
    (∃ n ∈ (AnalyzeProcedure ["If x > 0 Then", "y = 1", "Else", "y = 2", "End If"]
        10 "M" []).nodes, n.type = "op" ∧ n.text = "Else") := by decide

/-- C1 (amended): the exact output of the Builder on Scenario A at
offset 10: seven nodes including an `op "Else"` anchor, the `No` edge
entering that anchor rather than the second branch operation. -/
theorem C1_scenarioA :
    AnalyzeProcedure ["If x > 0 Then", "y = 1", "Else", "y = 2", "End If"] 10 "M" [] =
      ⟨[⟨"n10", "start", "Start", 10, none⟩, ⟨"n10_2", "cond", "If x > 0?", 10, none⟩,
        ⟨"n11", "op", "y = 1", 11, none⟩, ⟨"n12", "op", "Else", 12, none⟩,
        ⟨"n13", "op", "y = 2", 13, none⟩, ⟨"n14", "join", "End If", 14, none⟩,
        ⟨"n15", "end", "End", 15, none⟩],
       [⟨"n10", "n10_2", ""⟩, ⟨"n10_2", "n11", "Yes"⟩, ⟨"n10_2", "n12", "No"⟩,
        ⟨"n12", "n13", ""⟩, ⟨"n11", "n14", ""⟩, ⟨"n13", "n14", ""⟩, ⟨"n14", "n15", ""⟩],
       [], []⟩ := by decide

/-- C2: unqualified call resolution prefers the current module, then the
first declaring module in table order, then keeps the bare name
unresolved; the bare `Foo()` scenario yields an unresolved call record
and an unresolved call-graph edge without aborting. -/
theorem C2_call_resolution :
    (∀ (tbl : List (String × List String)) (m nm : String),
      declares tbl m nm = true →
        resolveCall tbl m ⟨none, nm⟩ = (m ++ "." ++ nm, true)) ∧
    (∀ (tbl : List (String × List String)) (m nm : String) (p : String × List String),
      declares tbl m nm = false →
        tbl.find? (fun q => listContainsCI q.2 nm) = some p →
        resolveCall tbl m ⟨none, nm⟩ = (p.1 ++ "." ++ nm, true)) ∧
    (∀ (tbl : List (String × List String)) (m nm : String),
      declares tbl m nm = false →
        tbl.find? (fun q => listContainsCI q.2 nm) = none →
        resolveCall tbl m ⟨none, nm⟩ = (nm, false)) ∧
    (AnalyzeProcedure ["Foo()"] 5 "M1" [("M1", ["Bar"])]).calls = [⟨"Foo", false, 5⟩] ∧
    foldCallGraph "M1" [⟨"P", 5, ["Foo()"]⟩] [("M1", ["Bar"])] =
      (["M1.P", "Foo"], [⟨"M1.P", "Foo", false⟩]) := by
  refine ⟨?_, ?_, ?_, by decide, by decide⟩
  · intro tbl m nm hd
    unfold resolveCall
    dsimp only
    rw [if_pos (show (tableHasKey tbl m && listContainsCI (tableGet tbl m) nm) = true from hd)]
  · intro tbl m nm p hd hf
    unfold resolveCall
    dsimp only
    rw [if_neg (show ¬(tableHasKey tbl m && listContainsCI (tableGet tbl m) nm) = true by
        rw [show (tableHasKey tbl m && listContainsCI (tableGet tbl m) nm) = false from hd]
        decide), hf]
  · intro tbl m nm hd hf
    unfold resolveCall
    dsimp only
    rw [if_neg (show ¬(tableHasKey tbl m && listContainsCI (tableGet tbl m) nm) = true by
        rw [show (tableHasKey tbl m && listContainsCI (tableGet tbl m) nm) = false from hd]
        decide), hf]

/-- C3: counterexample to the unconditional in-degree invariant: after
an unconditional `Exit Sub` the following statement is emitted as a
node with no incoming edge at all. -/
theorem C3_exit_dangling :
    (⟨"n11", "op", "x = 1", 11, none⟩ : Node) ∈
      (AnalyzeProcedure ["Exit Sub", "x = 1"] 10 "M" []).nodes ∧
    (⟨"n11", "op", "x = 1", 11, none⟩ : Node).type ≠ "start" ∧
    inDeg (AnalyzeProcedure ["Exit Sub", "x = 1"] 10 "M" []).edges "n11" = 0 := by decide

/-- C3 (amended): when no body line reaches the `Exit`/`Return`/
`Err.Raise` or `ElseIf` branches, every node except the `start` node
has in-degree at least 1 after Builder completion. -/
theorem C3_indeg_benign (body : List String) (off : Nat) (m : String)
    (tbl : List (String × List String)) (hb : ∀ l ∈ body, benign l) :
    ∀ n ∈ (AnalyzeProcedure body off m tbl).nodes, n.type = "start" ∨
      1 ≤ inDeg (AnalyzeProcedure body off m tbl).edges n.id :=
  fun n hn => IndegOK_finalState body off m tbl hb n hn

/-- C3 witness: the benign Scenario A body satisfies the hypothesis and
hence the in-degree bound. -/
theorem C3_indeg_benign_witness :
    (∀ l ∈ ["If x > 0 Then", "y = 1", "Else", "y = 2", "End If"], benign l) ∧
    (∀ n ∈ (AnalyzeProcedure ["If x > 0 Then", "y = 1", "Else", "y = 2", "End If"]
        10 "M" []).nodes,
      n.type = "start" ∨
        1 ≤ inDeg (AnalyzeProcedure ["If x > 0 Then", "y = 1", "Else", "y = 2", "End If"]
          10 "M" []).edges n.id) :=
  ⟨by decide, C3_indeg_benign ["If x > 0 Then", "y = 1", "Else", "y = 2", "End If"]
    10 "M" [] (by decide)⟩

/-- C4: for the body `[Goto L, L:]` no `label`-typed node is ever
emitted (label lines are skipped before classification), and the goto
edge targets the phantom id `n11` that belongs to no node. -/
theorem C4_goto_phantom :
    (∀ n ∈ (AnalyzeProcedure ["Goto L", "L:"] 10 "M" []).nodes, n.type ≠ "label") ∧
    (⟨"n10_2", "n11", "goto"⟩ : Edge) ∈ (AnalyzeProcedure ["Goto L", "L:"] 10 "M" []).edges ∧
    "n11" ∉ (AnalyzeProcedure ["Goto L", "L:"] 10 "M" []).nodes.map (fun n => n.id) := by decide

/-- C5: counterexample: a `Next` whose `For` header is buried under an
open `If` frame is ignored entirely, so the nearest unmatched header of
the same kind gets no span. -/
theorem C5_next_buried :
    (AnalyzeProcedure ["For i = 1 To 3", "If a Then", "Next"] 10 "M" []).loopSpans = [] ∧
    (∃ n ∈ (AnalyzeProcedure ["For i = 1 To 3", "If a Then", "Next"] 10 "M" []).nodes,
      n.type = "loop") := by decide

/-- C5 (amended): `Loop` pops (discarding intervening frames) to the
nearest `Do` and then appends exactly one span; with no `Do` frame it
appends none; `Next` appends exactly one span only when a `For` frame
is exactly on top and otherwise leaves the state unchanged; a `Do`
closed across an open `If` still gets its span, and an unterminated
`Do` yields no span and no error. -/
theorem C5_loop_spans :
    (∀ (st : BState) (ln : Nat) (h0 : String) (hl hid : Nat) (rest : List Frame),
      popUntilKind st.stack "Do" = (some (Frame.doF h0 hl hid), rest) →
        ∃ sp : LoopSpan, (stepLoop st ln).loopSpans = st.loopSpans ++ [sp] ∧
          sp.headId = stripLeadN h0 ∧ sp.start = hl ∧ sp.end_ = ln) ∧
    (∀ (st : BState) (ln : Nat), (popUntilKind st.stack "Do").1 = none →
      (stepLoop st ln).loopSpans = st.loopSpans) ∧
    (∀ (st : BState) (ln : Nat) (loopId : String) (fl : Nat) (fc : String) (hid : Nat)
        (rest : List Frame), st.stack = Frame.forF loopId fl fc hid :: rest →
      ∃ sp : LoopSpan, (stepNext st ln).loopSpans = st.loopSpans ++ [sp] ∧
        sp.headId = stripLeadN loopId ∧ sp.start = fl ∧ sp.end_ = ln) ∧
    (∀ (st : BState) (ln : Nat),
      (∀ (loopId : String) (fl : Nat) (fc : String) (hid : Nat) (rest : List Frame),
        st.stack ≠ Frame.forF loopId fl fc hid :: rest) →
      stepNext st ln = st) ∧
    (AnalyzeProcedure ["Do While a", "If b Then", "Loop"] 10 "M" []).loopSpans =
      [⟨"10_2", "12", 10, 12, 1, 0⟩] ∧
    (AnalyzeProcedure ["Do While a", "x = 1"] 10 "M" []).loopSpans = [] := by
  refine ⟨?_, ?_, ?_, ?_, by decide, by decide⟩
  · intro st ln h0 hl hid rest hpop
    unfold stepLoop
    rw [hpop]
    dsimp only
    exact ⟨_, by rw [AddEdge_loopSpans, AddNode_loopSpans], rfl, rfl, rfl⟩
  · intro st ln hnone
    unfold stepLoop
    rcases hpop : popUntilKind st.stack "Do" with ⟨top?, rest⟩
    rw [hpop] at hnone
    dsimp only at hnone
    subst hnone
    rfl
  · intro st ln loopId fl fc hid rest hstk
    unfold stepNext
    rw [hstk]
    dsimp only
    exact ⟨_, by rw [AddEdge_loopSpans, AddNode_loopSpans], rfl, rfl, rfl⟩
  · intro st ln hne
    unfold stepNext
    rcases hstk : st.stack with _ | ⟨fr, rest⟩
    · rfl
    rcases fr with ⟨cond, hasElse, line, ends, ny, nn, ne, hid⟩ | ⟨head, hline, hid⟩ |
      ⟨loopId, fline, fc, hid⟩ | ⟨head, sline, ends, inCase⟩ | ⟨head, wline⟩
    · rfl
    · rfl
    · exact absurd hstk (hne _ _ _ _ _)
    · rfl
    · rfl

/-- C6: counterexample: a condition node can carry an outgoing edge
with the empty label, e.g. the chain edge from an outer `If` condition
to an immediately nested `If` condition. -/
theorem C6_cond_empty_label :
    (⟨"n10_2", "cond", "If a > 0?", 10, none⟩ : Node) ∈
      (AnalyzeProcedure ["If a > 0 Then", "If b > 0 Then", "End If", "End If"]
        10 "M" []).nodes ∧
    (⟨"n10_2", "n11", ""⟩ : Edge) ∈
      (AnalyzeProcedure ["If a > 0 Then", "If b > 0 Then", "End If", "End If"]
        10 "M" []).edges := by decide

/-- C6 (amended): every outgoing edge of every `cond` node carries one
of the labels "", "Yes" or "No" (never "goto" or anything else). -/
theorem C6_cond_labels (body : List String) (off : Nat) (m : String)
    (tbl : List (String × List String)) :
    ∀ n ∈ (AnalyzeProcedure body off m tbl).nodes, n.type = "cond" →
      ∀ e ∈ (AnalyzeProcedure body off m tbl).edges, e.from_ = n.id →
        e.label = "" ∨ e.label = "Yes" ∨ e.label = "No" := by
  intro n hn hty e he hfrom
  have h0 := Inv0_finalState body off m tbl
  rcases h0.edge_label e he with h1 | h1 | h1 | h1
  · exact Or.inl h1
  · exact Or.inr (Or.inl h1)
  · exact Or.inr (Or.inr h1)
  · exfalso
    obtain ⟨n2, hn2, hid2, hty2⟩ := h0.goto_from e he h1
    have hids : n.id = n2.id := by rw [← hfrom, hid2]
    have hnn : n = n2 := List.inj_on_of_nodup_map h0.nodup hn hn2 hids
    rw [hnn, hty2] at hty
    exact absurd hty (by decide)

/-- C6 witness: the chain edge out of the outer condition of the nested
`If` body indeed carries one of the three labels. -/
theorem C6_cond_labels_witness :
    (⟨"n10_2", "n11", ""⟩ : Edge).label = "" ∨ (⟨"n10_2", "n11", ""⟩ : Edge).label = "Yes" ∨
      (⟨"n10_2", "n11", ""⟩ : Edge).label = "No" :=
  C6_cond_labels ["If a > 0 Then", "If b > 0 Then", "End If", "End If"] 10 "M" []
    ⟨"n10_2", "cond", "If a > 0?", 10, none⟩ (by decide) rfl
    ⟨"n10_2", "n11", ""⟩ (by decide) rfl

/-- C7: the comment stripper truncates inside a double-quoted string
literal: an apostrophe inside the (odd-indexed) in-string segment is
treated as a comment start, so the line `x = "don\x27t"` comes back as
`x = "don`, while whole-line comment markers do map to the empty
string. -/
theorem C7_apostrophe_in_string :
    StripComments "x = \"don\x27t\"" = "x = \"don" ∧
    StripComments "x = \"don\x27t\"" ≠ "x = \"don\x27t\"" ∧
    StripComments "   \x27 leading comment" = "" ∧
    StripComments "Rem note" = "" := by decide

/-- C8: counterexample: one unreadable module file aborts the whole
scan, losing the symbols of every other module. -/
theorem C8_unreadable_aborts :
    BuildSymbolTable ⟨true, [⟨"a.bas", none⟩,
      ⟨"b.bas", some ["Attribute VB_Name = \"BB\"", "Sub P()"]⟩]⟩ =
      Except.error (ScriptError.fileNotFound "a.bas") := rfl

/-- C8 (amended): the Symbol Table Builder fails with the
directory-not-found error exactly when the directory is missing; a
readable but malformed module file merely contributes an empty symbol
set while the other modules are still tabled; an unreadable file,
however, aborts (see the counterexample). -/
theorem C8_symbol_table :
    (∀ folder : Folder,
      BuildSymbolTable folder = Except.error ScriptError.folderNotFound ↔
        folder.dirExists = false) ∧
    BuildSymbolTable ⟨true, [⟨"a.bas", some ["garbage remains &&"]⟩,
      ⟨"b.bas", some ["Attribute VB_Name = \"BB\"", "Sub P()"]⟩]⟩ =
      Except.ok [("a", []), ("BB", ["P"])] := by
  refine ⟨?_, rfl⟩
  intro folder
  constructor
  · intro h
    rcases hD : folder.dirExists
    · rfl
    · exfalso
      unfold BuildSymbolTable at h
      rw [hD] at h
      rw [if_neg (by decide)] at h
      exact buildSymbolGo_no_dirErr _ _ h
  · intro hd
    unfold BuildSymbolTable
    rw [hd, if_pos (by decide)]

/-- C9: the Builder is a pure function of its four inputs: two runs on
identical input are identical, and analysing the same procedure twice
inside the call-graph fold contributes two identical edge batches (the
per-procedure id sequence restarts from the same seed). -/
theorem C9_deterministic :
    (∀ (body : List String) (off : Nat) (m : String) (tbl : List (String × List String)),
      AnalyzeProcedure body off m tbl = AnalyzeProcedure body off m tbl) ∧
    (∀ (m : String) (p : ProcIn) (tbl : List (String × List String)),
      (foldCallGraph m [p, p] tbl).2
        = (foldCallGraph m [p] tbl).2 ++ (foldCallGraph m [p] tbl).2) := by
  refine ⟨fun _ _ _ _ => rfl, ?_⟩
  intro m p tbl
  unfold foldCallGraph
  simp only [List.foldl_cons, List.foldl_nil]
  simp only [callEdges_foldl]
  simp

/-- C10: every emitted edge has non-empty, non-whitespace endpoints; an
edge request with a missing or whitespace endpoint is discarded
unchanged; after an unconditional `Exit Sub` the next statement node is
emitted with no incoming edge rather than an edge with a null
endpoint. -/
theorem C10_edge_endpoints :
    (∀ (body : List String) (off : Nat) (m : String) (tbl : List (String × List String)),
      ∀ e ∈ (AnalyzeProcedure body off m tbl).edges,
        e.from_ ≠ "" ∧ e.to_ ≠ "" ∧
        isNullOrWhiteSpace e.from_ = false ∧ isNullOrWhiteSpace e.to_ = false) ∧
    (∀ (st : BState) (t : Option String) (l : String), AddEdge st none t l = st) ∧
    (∀ (st : BState) (f : Option String) (l : String), AddEdge st f none l = st) ∧
    (∀ (st : BState) (f t l : String),
      (isNullOrWhiteSpace f || isNullOrWhiteSpace t) = true →
        AddEdge st (some f) (some t) l = st) ∧
    inDeg (AnalyzeProcedure ["Exit Sub", "x = 1"] 10 "M" []).edges "n11" = 0 ∧
    "n11" ∈ (AnalyzeProcedure ["Exit Sub", "x = 1"] 10 "M" []).nodes.map (fun n => n.id) := by
  refine ⟨?_, ?_, ?_, ?_, by decide, by decide⟩
  · intro body off m tbl e he
    obtain ⟨h1, h2⟩ := (Inv0_finalState body off m tbl).edge_ws e he
    refine ⟨?_, ?_, h1, h2⟩
    · intro hz
      rw [hz] at h1
      exact absurd h1 (by decide)
    · intro hz
      rw [hz] at h2
      exact absurd h2 (by decide)
  · intro st t l
    unfold AddEdge
    rcases t with _ | t <;> rfl
  · intro st f l
    unfold AddEdge
    rcases f with _ | f <;> rfl
  · intro st f t l hw
    unfold AddEdge
    dsimp only
    rw [if_pos hw]

end VBAFlow
